import Mathlib

/-!
# Fitness tracker: formula engine and record parsers

A shallow embedding of the Go packages `spentenergy`, `daysteps`, `trainings`,
`personaldata` and `actioninfo`, together with the pieces of the Go runtime and
standard library they call (`float64` arithmetic, `time.Duration`, `strings.Split`,
`strconv.Atoi`, `time.ParseDuration`, the verbs `%d`, `%s` and `%.2f` of `fmt`).

* Go `int`, `int64` and `time.Duration` values are integers (`Int`); the model is
  of a 64-bit platform (`int` is 64 bits wide) and the range is stated where it matters.
* Go strings are byte sequences (`List Nat`, every byte below 256).
* `float64` is IEEE-754 binary64 with round-to-nearest-even.  Every finite
  binary64 number is an integer multiple of `2^-1074`, so a finite value is
  stored as a sign and a magnitude counted in units of `2^-1074`.
-/

set_option exponentiation.threshold 5000

/-! ## IEEE-754 binary64 -/

/-- A binary64 value: NaN, a signed infinity, or a signed finite number
`(-1)^neg * n * 2^-1074`. -/
inductive F64 where
  | nan
  | inf (neg : Bool)
  | fin (neg : Bool) (n : Nat)
  deriving DecidableEq, Repr

namespace F64

/-- Number of units of `2^-1074` in `1.0`. -/
def one : Nat := 2 ^ 1074

/-- Magnitudes from `2^2098` units (`2^1024`) on are out of range. -/
def huge : Nat := 2 ^ 2098

/-- Floor of the binary logarithm of `n`, for `0 < n < 2^(2^k)`, by binary descent. -/
def log2d : Nat → Nat → Nat
  | 0, _ => 0
  | k + 1, n => if n < 2 ^ 2 ^ k then log2d k n else 2 ^ k + log2d k (n / 2 ^ 2 ^ k)

/-- Spacing exponent of the binary64 grid at a magnitude whose integer part is
`q` units: `0` in the subnormal range and the first binade, `bitlength - 53` above. -/
def ulpExp (q : Nat) : Nat := if q < 2 ^ 53 then 0 else log2d 12 q - 52

/-- Round the non-negative rational `num / den` (in units of `2^-1074`) to the
nearest representable magnitude, ties to even; `none` is overflow. -/
def roundNat (num den : Nat) : Option Nat :=
  let q := num / den
  if huge ≤ q then none
  else
    let s := ulpExp q
    let D := den * 2 ^ s
    let m := num / D
    let r := num % D
    let m' := if D < 2 * r ∨ (2 * r = D ∧ m % 2 = 1) then m + 1 else m
    if huge ≤ m' * 2 ^ s then none else some (m' * 2 ^ s)

/-- Round `num / den` units to a float of the given sign. -/
def round (neg : Bool) (num den : Nat) : F64 :=
  match roundNat num den with
  | some n => fin neg n
  | none => inf neg

/-- The magnitude `n` is on the binary64 grid: at most 53 significant bits and in range. -/
def Representable (n : Nat) : Prop := n < huge ∧ n % 2 ^ ulpExp n = 0

instance (n : Nat) : Decidable (Representable n) := by
  unfold Representable; exact inferInstance

/-- The value is a binary64 number. -/
def Valid : F64 → Prop
  | fin _ n => Representable n
  | _ => True

instance (x : F64) : Decidable (Valid x) := by
  cases x <;> unfold Valid <;> exact inferInstance

/-- Conversion `float64(k)` of an integer. -/
def ofInt (k : Int) : F64 := round (decide (k < 0)) (k.natAbs * one) 1

/-- Conversion `float64(k)` of an unsigned integer. -/
def ofNat (k : Nat) : F64 := round false (k * one) 1

/-- The float64 nearest to the decimal constant `num / den`. -/
def ofRatio (num den : Nat) : F64 := round false (num * one) den

/-- The constant `0`. -/
def zero : F64 := fin false 0

/-- Float multiplication `x * y`. -/
def mul : F64 → F64 → F64
  | nan, _ => nan
  | _, nan => nan
  | inf a, inf b => inf (xor a b)
  | inf a, fin b n => if n = 0 then nan else inf (xor a b)
  | fin a n, inf b => if n = 0 then nan else inf (xor a b)
  | fin a n1, fin b n2 => round (xor a b) (n1 * n2) one

/-- Float division `x / y`. -/
def div : F64 → F64 → F64
  | nan, _ => nan
  | _, nan => nan
  | inf _, inf _ => nan
  | inf a, fin b _ => inf (xor a b)
  | fin a _, inf b => fin (xor a b) 0
  | fin a n1, fin b n2 =>
    if n2 = 0 then (if n1 = 0 then nan else inf (xor a b))
    else round (xor a b) (n1 * one) n2

/-- Float addition `x + y`. -/
def add : F64 → F64 → F64
  | nan, _ => nan
  | _, nan => nan
  | inf a, inf b => if a = b then inf a else nan
  | inf a, fin _ _ => inf a
  | fin _ _, inf b => inf b
  | fin a n1, fin b n2 =>
    if a = b then round a (n1 + n2) 1
    else if n2 < n1 then round a (n1 - n2) 1
    else if n1 < n2 then round b (n2 - n1) 1
    else fin false 0

/-- Signed number of units of a finite value. -/
def signed (neg : Bool) (n : Nat) : Int := if neg then -(n : Int) else (n : Int)

/-- Float comparison `x <= y` (false when either side is NaN). -/
def le : F64 → F64 → Bool
  | nan, _ => false
  | _, nan => false
  | inf true, _ => true
  | _, inf false => true
  | inf false, _ => false
  | _, inf true => false
  | fin a n1, fin b n2 => decide (signed a n1 ≤ signed b n2)

/-- Float comparison `x < y` (false when either side is NaN). -/
def lt : F64 → F64 → Bool
  | nan, _ => false
  | _, nan => false
  | inf false, _ => false
  | _, inf true => false
  | inf true, _ => true
  | _, inf false => true
  | fin a n1, fin b n2 => decide (signed a n1 < signed b n2)

/-- Float comparison `x == y` (NaN differs from everything, `-0 == +0`). -/
def eq : F64 → F64 → Bool
  | nan, _ => false
  | _, nan => false
  | inf a, inf b => a == b
  | fin a n1, fin b n2 => decide (signed a n1 = signed b n2)
  | _, _ => false

/-- Conversion `uint64(x)` of a non-negative finite float: truncation. -/
def toUint64 : F64 → Nat
  | fin false n => n / one % 2 ^ 64
  | _ => 0

/-- Strictly positive: `+Inf` or a finite positive number. -/
def IsPos : F64 → Prop
  | inf false => True
  | fin false n => 0 < n
  | _ => False

/-- Strictly negative: `-Inf` or a finite negative number. -/
def IsNeg : F64 → Prop
  | inf true => True
  | fin true n => 0 < n
  | _ => False

/-- At least `2^j` units in magnitude, with the given sign. -/
def GePow (neg : Bool) (j : Nat) : F64 → Prop
  | inf s => s = neg
  | fin s n => s = neg ∧ 2 ^ j ≤ n
  | _ => False

/-- The value is a finite number. -/
def isFinite : F64 → Bool
  | fin _ _ => true
  | _ => false

end F64

/-! ## Package time: durations -/

namespace time

/-- A `time.Duration`: a signed 64-bit count of nanoseconds. -/
abbrev Duration := Int

/-- One nanosecond, the unit of `Duration`. -/
def Nanosecond : Duration := 1

/-- One microsecond. -/
def Microsecond : Duration := 1000 * Nanosecond

/-- One millisecond. -/
def Millisecond : Duration := 1000 * Microsecond

/-- One second. -/
def Second : Duration := 1000 * Millisecond

/-- One minute. -/
def Minute : Duration := 60 * Second

/-- One hour. -/
def Hour : Duration := 60 * Minute

/-- The method `Duration.Seconds`. -/
def Duration.Seconds (d : Duration) : F64 :=
  let sec := Int.tdiv d Second
  let nsec := Int.tmod d Second
  F64.add (F64.ofInt sec) (F64.div (F64.ofInt nsec) (F64.ofInt 1000000000))

/-- The method `Duration.Minutes`. -/
def Duration.Minutes (d : Duration) : F64 :=
  let min := Int.tdiv d Minute
  let nsec := Int.tmod d Minute
  F64.add (F64.ofInt min) (F64.div (F64.ofInt nsec) (F64.ofInt (60 * 1000000000)))

/-- The method `Duration.Hours`. -/
def Duration.Hours (d : Duration) : F64 :=
  let h := Int.tdiv d Hour
  let nsec := Int.tmod d Hour
  F64.add (F64.ofInt h) (F64.div (F64.ofInt nsec) (F64.ofInt (60 * 60 * 1000000000)))

end time

/-! ## Errors -/

/-- The package-level error variables created with `errors.New`. -/
inductive ErrVar where
  | spentenergyInvalidParams
  | daystepsInvalidFormat
  | daystepsInvalidCount
  | daystepsInvalidDuration
  | trainingsInvalidFormat
  | trainingsInvalidCount
  | trainingsInvalidDuration
  | trainingsInvalidTraining
  deriving DecidableEq, Repr

/-- The two failures of `strconv.Atoi`. -/
inductive NumError where
  | badSyntax
  | outOfRange
  deriving DecidableEq, Repr

/-- The failures of `time.ParseDuration`. -/
inductive DurationError where
  | invalid
  | missingUnit
  | unknownUnit (u : List Nat)
  deriving DecidableEq, Repr

/-- What follows the wrapped error in a `fmt.Errorf("%w: ...")` message. -/
inductive Detail where
  | parts (n : Nat)
  | atoi (e : NumError)
  | got (n : Int)
  | duration (e : DurationError)
  | nilError
  deriving DecidableEq, Repr

/-- An error value: a package-level variable itself, or one wrapped by `fmt.Errorf`. -/
inductive GoError where
  | var (v : ErrVar)
  | wrapf (v : ErrVar) (d : Detail)
  deriving DecidableEq, Repr

/-- The test `errors.Is(e, target)`: `e` is the target or wraps it. -/
def GoError.Is (e target : GoError) : Bool :=
  e == target ||
    match e with
    | .wrapf v _ => target == .var v
    | .var _ => false

/-- The returned error is non-nil and wraps `target` (the test `errors.Is`). -/
def failsWith (r : Option GoError) (target : GoError) : Bool :=
  match r with
  | some e => e.Is target
  | none => false

/-! ## Package spentenergy -/

namespace spentenergy

/-- Metres in a kilometre: the constant `1000`. -/
def mInKm : F64 := F64.ofInt 1000

/-- Minutes in an hour: the constant `60`. -/
def minInH : F64 := F64.ofInt 60

/-- Step length as a fraction of the height: the constant `0.45`. -/
def stepLengthCoefficient : F64 := F64.ofRatio 45 100

/-- Walking burns this fraction of the running calories: the constant `0.5`. -/
def walkingCaloriesCoefficient : F64 := F64.ofRatio 5 10

/-- The error variable `ErrInvalidParams`. -/
def ErrInvalidParams : GoError := .var .spentenergyInvalidParams

/-- Distance in kilometres. -/
def Distance (steps : Int) (height : F64) : F64 :=
  let stepHeight := F64.mul height stepLengthCoefficient
  let stepsDistance := F64.mul (F64.ofInt steps) stepHeight
  F64.div stepsDistance mInKm

/-- Mean speed in km/h. -/
def MeanSpeed (steps : Int) (height : F64) (duration : time.Duration) : F64 :=
  if duration ≤ 0 then F64.zero
  else F64.div (Distance steps height) (time.Duration.Hours duration)

/-- Calories spent running: the value and the error of the Go result pair. -/
def RunningSpentCalories (steps : Int) (weight height : F64) (duration : time.Duration) :
    F64 × Option GoError :=
  if steps ≤ 0 ∨ F64.le weight F64.zero = true ∨ F64.le height F64.zero = true
      ∨ F64.le (time.Duration.Seconds duration) F64.zero = true then
    (F64.zero, some ErrInvalidParams)
  else
    let avgSpeed := MeanSpeed steps height duration
    let calories := F64.div (F64.mul (F64.mul weight avgSpeed) (time.Duration.Minutes duration)) minInH
    (calories, none)

/-- Calories spent walking. -/
def WalkingSpentCalories (steps : Int) (weight height : F64) (duration : time.Duration) :
    F64 × Option GoError :=
  match RunningSpentCalories steps weight height duration with
  | (_, some err) => (F64.zero, some err)
  | (calories, none) => (F64.mul calories walkingCaloriesCoefficient, none)

/-- The computation of `Distance steps height` stays in the normal range: `float64(steps)` and
the step length are finite, the exact product `steps * stepHeight` is zero or at least
`2^-1022` in magnitude, the rounded product is finite, and the exact quotient by 1000 is
zero or at least `2^-1022` in magnitude. -/
def DistanceNormal (steps : Int) (height : F64) : Prop :=
  match F64.ofInt steps, F64.mul height stepLengthCoefficient with
  | .fin sa na, .fin sb nb =>
    (na * nb = 0 ∨ 2 ^ 52 * F64.one ≤ na * nb) ∧
    match F64.mul (.fin sa na) (.fin sb nb) with
    | .fin _ nx => nx = 0 ∨ 2 ^ 52 * (1000 * F64.one) ≤ nx * F64.one
    | _ => False
  | _, _ => False

instance (steps : Int) (height : F64) : Decidable (DistanceNormal steps height) := by
  unfold DistanceNormal
  split
  · split <;> exact inferInstance
  · exact inferInstance

end spentenergy

/-! ## Go strings -/

/-- A Go string: a sequence of bytes. -/
abbrev GoString := List Nat

/-- UTF-8 bytes of one code point. -/
def utf8EncodeChar (c : Char) : List Nat :=
  let v := c.toNat
  if v < 0x80 then [v]
  else if v < 0x800 then [0xC0 + v / 0x40, 0x80 + v % 0x40]
  else if v < 0x10000 then [0xE0 + v / 0x1000, 0x80 + v / 0x40 % 0x40, 0x80 + v % 0x40]
  else [0xF0 + v / 0x40000, 0x80 + v / 0x1000 % 0x40, 0x80 + v / 0x40 % 0x40, 0x80 + v % 0x40]

/-- The bytes of a Go string literal (Go source text is UTF-8). -/
def utf8 (s : String) : GoString := (s.toList.map utf8EncodeChar).flatten

/-! ## Package strings -/

namespace strings

/-- The call `strings.Split(s, sep)` for a one-byte separator `sep`. -/
def Split : GoString → Nat → List GoString
  | [], _ => [[]]
  | c :: cs, sep =>
    if c = sep then [] :: Split cs sep
    else
      match Split cs sep with
      | [] => [[c]]
      | f :: fs => (c :: f) :: fs

end strings

/-! ## Package strconv -/

namespace strconv

/-- The digit loop of `ParseUint(s, 10, 64)`, with accumulator `n`: the value and the error. -/
def parseUintLoop : GoString → Nat → Nat × Option NumError
  | [], n => (n, none)
  | c :: cs, n =>
    if ¬ (48 ≤ c ∧ c ≤ 57) then (0, some .badSyntax)
    else if 2 ^ 64 / 10 + 1 ≤ n then (2 ^ 64 - 1, some .outOfRange)
    else
      let n10 := n * 10
      let n1 := (n10 + (c - 48)) % 2 ^ 64
      if n1 < n10 then (2 ^ 64 - 1, some .outOfRange)
      else parseUintLoop cs n1

/-- The call `ParseUint(s, 10, 64)`. -/
def ParseUint (s : GoString) : Nat × Option NumError :=
  match s with
  | [] => (0, some .badSyntax)
  | _ => parseUintLoop s 0

/-- The call `ParseInt(s, 10, 0)` on a 64-bit platform. -/
def ParseInt (s : GoString) : Int × Option NumError :=
  match s with
  | [] => (0, some .badSyntax)
  | c :: cs =>
    let neg := decide (c = 45)
    let s1 := if c = 43 ∨ c = 45 then cs else s
    let (un, err) := ParseUint s1
    if err = some .badSyntax then (0, err)
    else
      let cutoff : Nat := 2 ^ 63
      if neg = false ∧ cutoff ≤ un then ((cutoff : Int) - 1, some .outOfRange)
      else if neg = true ∧ cutoff < un then (-(cutoff : Int), some .outOfRange)
      else (if neg then -(un : Int) else (un : Int), none)

/-- The call `strconv.Atoi(s)` (its fast path for short inputs returns the same results). -/
def Atoi (s : GoString) : Int × Option NumError := ParseInt s

end strconv

/-! ## Decimal integer literals

The reference notion against which `strconv.Atoi` is compared. -/

/-- Value of a string of decimal digits read after the digits already accumulated in `acc`;
`none` when some byte is not a digit. -/
def digitsValue : GoString → Nat → Option Nat
  | [], acc => some acc
  | c :: cs, acc => if 48 ≤ c ∧ c ≤ 57 then digitsValue cs (acc * 10 + (c - 48)) else none

/-- The integer written by a decimal literal: an optional sign `+` or `-` followed by one
or more digits `0`-`9`, of any length; `none` when the bytes are not of that form. -/
def decimalInteger (s : GoString) : Option Int :=
  match s with
  | [] => none
  | c :: cs =>
    if c = 45 then
      (if cs = [] then none else Option.map (fun v : Nat => -(v : Int)) (digitsValue cs 0))
    else if c = 43 then
      (if cs = [] then none else Option.map (fun v : Nat => (v : Int)) (digitsValue cs 0))
    else Option.map (fun v : Nat => (v : Int)) (digitsValue (c :: cs) 0)

/-! ## Package time: parsing durations -/

namespace time

/-- Reinterpret an integer as a signed 64-bit value (two's complement wrap-around). -/
def wrapInt64 (x : Int) : Int := (x + 2 ^ 63) % 2 ^ 64 - 2 ^ 63

/-- The helper `leadingInt`: consume leading digits; `none` is the overflow error. -/
def leadingInt : GoString → Nat → Option (Nat × GoString)
  | [], x => some (x, [])
  | c :: cs, x =>
    if c < 48 ∨ 57 < c then some (x, c :: cs)
    else if 2 ^ 63 / 10 < x then none
    else
      let x1 := x * 10 + (c - 48)
      if 2 ^ 63 < x1 then none else leadingInt cs x1

/-- The helper `leadingFraction`: consume leading digits, accumulating a value and its
scale until the value would overflow. -/
def leadingFraction : GoString → Nat → F64 → Bool → Nat × F64 × GoString
  | [], x, scale, _ => (x, scale, [])
  | c :: cs, x, scale, overflow =>
    if c < 48 ∨ 57 < c then (x, scale, c :: cs)
    else if overflow then leadingFraction cs x scale true
    else if (2 ^ 63 - 1) / 10 < x then leadingFraction cs x scale true
    else
      let y := x * 10 + (c - 48)
      if 2 ^ 63 < y then leadingFraction cs x scale true
      else leadingFraction cs y (F64.mul scale (F64.ofInt 10)) false

/-- The table `unitMap`: nanoseconds per unit. -/
def unitMap (u : GoString) : Option Nat :=
  if u = utf8 "ns" then some 1
  else if u = utf8 "us" then some 1000
  else if u = utf8 "µs" then some 1000
  else if u = utf8 "μs" then some 1000
  else if u = utf8 "ms" then some 1000000
  else if u = utf8 "s" then some 1000000000
  else if u = utf8 "m" then some 60000000000
  else if u = utf8 "h" then some 3600000000000
  else none

/-- A byte that ends a unit name: `.` or a digit. -/
def endsUnit (c : Nat) : Bool := decide (c = 46 ∨ (48 ≤ c ∧ c ≤ 57))

/-- The optional fraction `(\.[0-9]*)?` of one term, read from `s1`: its digits as an
integer, their scale, the remaining input, and whether a digit was consumed. -/
def fraction (s1 : GoString) : Nat × F64 × GoString × Bool :=
  match s1 with
  | 46 :: t =>
    let r := leadingFraction t 0 (F64.ofInt 1) false
    (r.1, r.2.1, r.2.2, decide (t.length ≠ r.2.2.length))
  | _ => (0, F64.ofInt 1, s1, false)

/-- One round of the loop of `ParseDuration`: read one term `[0-9]*(\.[0-9]*)?[a-z]+` from
the non-empty input; the result is the term's value in nanoseconds (a `uint64`) and the
remaining input. -/
def term (s : GoString) : Except DurationError (Nat × GoString) :=
  match s with
  | [] => .error .invalid
  | c :: _ =>
    if endsUnit c = false then .error .invalid
    else
      match leadingInt s 0 with
      | none => .error .invalid
      | some (v, s1) =>
        let pre := decide (s.length ≠ s1.length)
        let f := (fraction s1).1
        let scale := (fraction s1).2.1
        let s2 := (fraction s1).2.2.1
        let post := (fraction s1).2.2.2
        if pre = false ∧ post = false then .error .invalid
        else
          let u := s2.takeWhile (fun b => !endsUnit b)
          let s3 := s2.dropWhile (fun b => !endsUnit b)
          if u = [] then .error .missingUnit
          else
            match unitMap u with
            | none => .error (.unknownUnit u)
            | some unit =>
              if 2 ^ 63 / unit < v then .error .invalid
              else
                let v1 := v * unit
                let v2 :=
                  if 0 < f then
                    (v1 + F64.toUint64 (F64.mul (F64.ofNat f) (F64.div (F64.ofNat unit) scale)))
                      % 2 ^ 64
                  else v1
                if 0 < f ∧ 2 ^ 63 < v2 then .error .invalid
                else .ok (v2, s3)

/-- The loop `for s != ""` of `ParseDuration` with running total `d` (a `uint64`).  Every
round consumes at least one byte, so `fuel = len(s)` rounds are enough. -/
def parseLoop : Nat → GoString → Nat → Except DurationError Nat
  | _, [], d => .ok d
  | 0, _ :: _, _ => .error .invalid
  | fuel + 1, c :: cs, d =>
    match term (c :: cs) with
    | .error e => .error e
    | .ok (v, rest) =>
      let d1 := (d + v) % 2 ^ 64
      if 2 ^ 63 < d1 then .error .invalid
      else parseLoop fuel rest d1

/-- The function `time.ParseDuration`: the duration and the error. -/
def ParseDuration (s : GoString) : Duration × Option DurationError :=
  let neg := match s with
    | c :: _ => decide (c = 45)
    | [] => false
  let s1 := match s with
    | c :: cs => if c = 45 ∨ c = 43 then cs else s
    | [] => []
  if s1 = [48] then (0, none)
  else if s1 = [] then (0, some .invalid)
  else
    match parseLoop s1.length s1 0 with
    | .error e => (0, some e)
    | .ok d =>
      if neg then (wrapInt64 (-(wrapInt64 (d : Int))), none)
      else if 2 ^ 63 - 1 < d then (0, some .invalid)
      else ((d : Int), none)

end time

/-! ## Package personaldata -/

namespace personaldata

/-- The user's personal data. -/
structure Personal where
  Name : GoString
  Weight : F64
  Height : F64
  deriving DecidableEq, Repr

end personaldata

/-! ## Package daysteps -/

namespace daysteps

/-- A day's walking activity; the personal data are embedded. -/
structure DaySteps extends personaldata.Personal where
  Steps : Int
  Duration : time.Duration
  deriving DecidableEq, Repr

/-- The error variable `daysteps.ErrInvalidFormat`. -/
def ErrInvalidFormat : GoError := .var .daystepsInvalidFormat

/-- The error variable `daysteps.ErrInvalidCount`. -/
def ErrInvalidCount : GoError := .var .daystepsInvalidCount

/-- The error variable `daysteps.ErrInvalidDuration`. -/
def ErrInvalidDuration : GoError := .var .daystepsInvalidDuration

/-- The method `(*DaySteps).Parse`: the record after the call and the returned error. -/
def DaySteps.Parse (ds : DaySteps) (dataString : GoString) : DaySteps × Option GoError :=
  let parsedString := strings.Split dataString 44
  match parsedString with
  | [stepsStr, durationStr] =>
    match strconv.Atoi stepsStr with
    | (_, some err) => (ds, some (.wrapf .daystepsInvalidCount (.atoi err)))
    | (parsedSteps, none) =>
      if parsedSteps ≤ 0 then (ds, some (.wrapf .daystepsInvalidCount (.got parsedSteps)))
      else
        match time.ParseDuration durationStr with
        | (_, some err) => (ds, some (.wrapf .daystepsInvalidDuration (.duration err)))
        | (parsedDuration, none) =>
          if F64.le (time.Duration.Seconds parsedDuration) F64.zero = true then
            (ds, some (.wrapf .daystepsInvalidDuration .nilError))
          else
            ({ ds with Steps := parsedSteps, Duration := parsedDuration }, none)
  | _ => (ds, some (.wrapf .daystepsInvalidFormat (.parts parsedString.length)))

/-- The zero value `DaySteps{}`. -/
def zeroDaySteps : DaySteps :=
  { Name := [], Weight := F64.zero, Height := F64.zero, Steps := 0, Duration := 0 }

end daysteps

/-! ## Package trainings -/

namespace trainings

/-- A training session; the personal data are embedded. -/
structure Training extends personaldata.Personal where
  Steps : Int
  TrainingType : GoString
  Duration : time.Duration
  deriving DecidableEq, Repr

/-- The error variable `trainings.ErrInvalidFormat`. -/
def ErrInvalidFormat : GoError := .var .trainingsInvalidFormat

/-- The error variable `trainings.ErrInvalidCount`. -/
def ErrInvalidCount : GoError := .var .trainingsInvalidCount

/-- The error variable `trainings.ErrInvalidDuration`. -/
def ErrInvalidDuration : GoError := .var .trainingsInvalidDuration

/-- The error variable `trainings.ErrInvalidTraining`. -/
def ErrInvalidTraining : GoError := .var .trainingsInvalidTraining

/-- The method `(*Training).Parse`: the record after the call and the returned error. -/
def Training.Parse (t : Training) (dataString : GoString) : Training × Option GoError :=
  let parsedString := strings.Split dataString 44
  match parsedString with
  | [stepsStr, typeStr, durationStr] =>
    match strconv.Atoi stepsStr with
    | (_, some err) => (t, some (.wrapf .trainingsInvalidCount (.atoi err)))
    | (parsedSteps, none) =>
      if parsedSteps ≤ 0 then (t, some (.wrapf .trainingsInvalidCount (.got parsedSteps)))
      else
        match time.ParseDuration durationStr with
        | (_, some err) => (t, some (.wrapf .trainingsInvalidDuration (.duration err)))
        | (parsedDuration, none) =>
          if F64.le (time.Duration.Seconds parsedDuration) F64.zero = true then
            (t, some (.wrapf .trainingsInvalidDuration .nilError))
          else
            ({ t with Duration := parsedDuration, TrainingType := typeStr,
                      Steps := parsedSteps }, none)
  | _ => (t, some (.wrapf .trainingsInvalidFormat (.parts parsedString.length)))

/-- The zero value `Training{}`. -/
def zeroTraining : Training :=
  { Name := [], Weight := F64.zero, Height := F64.zero, Steps := 0, TrainingType := [],
    Duration := 0 }

end trainings

/-! ## Package fmt: the verbs used by the reports -/

namespace fmt

/-- Decimal digits of `n`, most significant first; `fuel` bounds the number of digits. -/
def digits : Nat → Nat → GoString
  | 0, n => [48 + n % 10]
  | fuel + 1, n => if n < 10 then [48 + n] else digits fuel (n / 10) ++ [48 + n % 10]

/-- The decimal numeral of a natural number. -/
def natString (n : Nat) : GoString := digits n n

/-- The verb `%d` applied to an `int`. -/
def formatInt (k : Int) : GoString :=
  if k < 0 then 45 :: natString k.natAbs else natString k.natAbs

/-- Nearest integer to `num / den`, ties to even. -/
def roundHalfEven (num den : Nat) : Nat :=
  let q := num / den
  let r := num % den
  if den < 2 * r ∨ (2 * r = den ∧ q % 2 = 1) then q + 1 else q

/-- The verb `%.2f` applied to a `float64`: the exact value rounded to two decimals (ties
to even), with a leading `-` when the sign bit is set. -/
def formatFloat2 : F64 → GoString
  | .nan => utf8 "NaN"
  | .inf false => utf8 "+Inf"
  | .inf true => utf8 "-Inf"
  | .fin neg n =>
    let c := roundHalfEven (n * 100) F64.one
    let body := natString (c / 100) ++ [46, 48 + c / 10 % 10, 48 + c % 10]
    if neg then 45 :: body else body

end fmt

/-! ## The reports: the method `ActionInfo` of both record types -/

namespace daysteps

/-- The call of `fmt.Sprintf` in `ActionInfo`: the three-line report. -/
def dayReport (steps : Int) (distance calories : F64) : GoString :=
  utf8 "Количество шагов: " ++ fmt.formatInt steps ++ utf8 ".\n"
    ++ utf8 "Дистанция составила " ++ fmt.formatFloat2 distance ++ utf8 " км.\n"
    ++ utf8 "Вы сожгли " ++ fmt.formatFloat2 calories ++ utf8 " ккал.\n"

/-- The method `(*DaySteps).ActionInfo`: the report and the error.  The method assigns no
field of the record. -/
def DaySteps.ActionInfo (ds : DaySteps) : GoString × Option GoError :=
  let distance := spentenergy.Distance ds.Steps ds.Height
  match spentenergy.WalkingSpentCalories ds.Steps ds.Weight ds.Height ds.Duration with
  | (_, some err) => ([], some err)
  | (calories, none) => (dayReport ds.Steps distance calories, none)

/-- A record with the profile of the examples (75.5 kg, 1.80 m) and nothing parsed yet. -/
def sampleDaySteps : DaySteps :=
  { Name := utf8 "Иван", Weight := F64.ofRatio 755 10, Height := F64.ofRatio 18 10,
    Steps := 0, Duration := 0 }

end daysteps

namespace trainings

/-- The calories and the error computed by the `switch` on the training type; `none` is
the `default` branch. -/
def Training.caloriesByType (t : Training) : Option (F64 × Option GoError) :=
  if t.TrainingType = utf8 "Ходьба" then
    some (spentenergy.WalkingSpentCalories t.Steps t.Weight t.Height t.Duration)
  else if t.TrainingType = utf8 "Бег" then
    some (spentenergy.RunningSpentCalories t.Steps t.Weight t.Height t.Duration)
  else none

/-- The call of `fmt.Sprintf` in `ActionInfo`: the five-line report. -/
def trainingReport (trainingType : GoString) (hours distance speed calories : F64) : GoString :=
  utf8 "Тип тренировки: " ++ trainingType ++ utf8 "\n"
    ++ utf8 "Длительность: " ++ fmt.formatFloat2 hours ++ utf8 " ч.\n"
    ++ utf8 "Дистанция: " ++ fmt.formatFloat2 distance ++ utf8 " км.\n"
    ++ utf8 "Скорость: " ++ fmt.formatFloat2 speed ++ utf8 " км/ч\n"
    ++ utf8 "Сожгли калорий: " ++ fmt.formatFloat2 calories ++ utf8 "\n"

/-- The method `(*Training).ActionInfo`: the report and the error.  The method assigns no
field of the record. -/
def Training.ActionInfo (t : Training) : GoString × Option GoError :=
  let trainingDistance := spentenergy.Distance t.Steps t.Height
  let avgSpeed := spentenergy.MeanSpeed t.Steps t.Height t.Duration
  match t.caloriesByType with
  | none => ([], some ErrInvalidTraining)
  | some (_, some calcErr) => ([], some calcErr)
  | some (calories, none) =>
    (trainingReport t.TrainingType (time.Duration.Hours t.Duration) trainingDistance avgSpeed
      calories, none)

/-- A record with the profile of the examples (75.5 kg, 1.80 m) and nothing parsed yet. -/
def sampleTraining : Training :=
  { Name := utf8 "Иван", Weight := F64.ofRatio 755 10, Height := F64.ofRatio 18 10,
    Steps := 0, TrainingType := [], Duration := 0 }

end trainings

/-! ## Package actioninfo -/

namespace actioninfo

/-- The interface `DataParser` over values of type `σ` held behind a pointer: each method
may update the value, so it returns the value after the call with its results. -/
structure DataParser (σ : Type) where
  Parse : σ → GoString → σ × Option GoError
  ActionInfo : σ → σ × (GoString × Option GoError)

/-- What one call of `log.Println` receives: an error or a report. -/
inductive LogEntry where
  | error (e : GoError)
  | report (info : GoString)
  deriving DecidableEq, Repr

/-- The body of the loop of `Info` for one element `data`: the value behind `dp` after the
round and the entry that is logged. -/
def step (P : DataParser σ) (dp : σ) (data : GoString) : σ × LogEntry :=
  match P.Parse dp data with
  | (dp1, some err) => (dp1, .error err)
  | (dp1, none) =>
    match P.ActionInfo dp1 with
    | (dp2, (_, some err)) => (dp2, .error err)
    | (dp2, (info, none)) => (dp2, .report info)

/-- The function `Info`: the value behind `dp` after the loop and the entries logged, in
the order of the calls of `log.Println`. -/
def Info (dataset : List GoString) (P : DataParser σ) (dp : σ) : σ × List LogEntry :=
  match dataset with
  | [] => (dp, [])
  | data :: rest =>
    let r := step P dp data
    let r' := Info rest P r.1
    (r'.1, r.2 :: r'.2)

/-- The type `*daysteps.DaySteps` as a `DataParser`. -/
def dayStepsParser : DataParser daysteps.DaySteps where
  Parse := daysteps.DaySteps.Parse
  ActionInfo := fun ds => (ds, ds.ActionInfo)

/-- The type `*trainings.Training` as a `DataParser`. -/
def trainingParser : DataParser trainings.Training where
  Parse := trainings.Training.Parse
  ActionInfo := fun t => (t, t.ActionInfo)

/-- The entry is an error. -/
def LogEntry.isError : LogEntry → Bool
  | .error _ => true
  | .report _ => false

end actioninfo

/-! ## The formula engine over an arbitrary arithmetic

The same formulas with the `float64` operations as a parameter, to read them in
binary64 (the code) and in exact rational arithmetic. -/

/-- The operations on numbers that the formula engine uses. -/
structure Arith (α : Type) where
  ofInt : Int → α
  ofRatio : Nat → Nat → α
  zero : α
  add : α → α → α
  mul : α → α → α
  div : α → α → α
  le : α → α → Bool

/-- The arithmetic of the code: binary64. -/
def Arith.binary64 : Arith F64 where
  ofInt := F64.ofInt
  ofRatio := F64.ofRatio
  zero := F64.zero
  add := F64.add
  mul := F64.mul
  div := F64.div
  le := F64.le

/-- Exact arithmetic on rational numbers. -/
def Arith.exact : Arith ℚ where
  ofInt := fun k => (k : ℚ)
  ofRatio := fun n d => (n : ℚ) / (d : ℚ)
  zero := 0
  add := fun a b => a + b
  mul := fun a b => a * b
  div := fun a b => a / b
  le := fun a b => decide (a ≤ b)

namespace generic

/-- The method `Duration.Seconds` over the arithmetic `A`. -/
def Seconds (A : Arith α) (d : time.Duration) : α :=
  A.add (A.ofInt (Int.tdiv d time.Second))
    (A.div (A.ofInt (Int.tmod d time.Second)) (A.ofInt 1000000000))

/-- The method `Duration.Minutes` over the arithmetic `A`. -/
def Minutes (A : Arith α) (d : time.Duration) : α :=
  A.add (A.ofInt (Int.tdiv d time.Minute))
    (A.div (A.ofInt (Int.tmod d time.Minute)) (A.ofInt (60 * 1000000000)))

/-- The method `Duration.Hours` over the arithmetic `A`. -/
def Hours (A : Arith α) (d : time.Duration) : α :=
  A.add (A.ofInt (Int.tdiv d time.Hour))
    (A.div (A.ofInt (Int.tmod d time.Hour)) (A.ofInt (60 * 60 * 1000000000)))

/-- The function `Distance` over the arithmetic `A`. -/
def Distance (A : Arith α) (steps : Int) (height : α) : α :=
  let stepHeight := A.mul height (A.ofRatio 45 100)
  let stepsDistance := A.mul (A.ofInt steps) stepHeight
  A.div stepsDistance (A.ofInt 1000)

/-- The function `MeanSpeed` over the arithmetic `A`. -/
def MeanSpeed (A : Arith α) (steps : Int) (height : α) (duration : time.Duration) : α :=
  if duration ≤ 0 then A.zero
  else A.div (Distance A steps height) (Hours A duration)

/-- The function `RunningSpentCalories` over the arithmetic `A`. -/
def RunningSpentCalories (A : Arith α) (steps : Int) (weight height : α)
    (duration : time.Duration) : α × Option GoError :=
  if steps ≤ 0 ∨ A.le weight A.zero = true ∨ A.le height A.zero = true
      ∨ A.le (Seconds A duration) A.zero = true then
    (A.zero, some spentenergy.ErrInvalidParams)
  else
    let avgSpeed := MeanSpeed A steps height duration
    let calories := A.div (A.mul (A.mul weight avgSpeed) (Minutes A duration)) (A.ofInt 60)
    (calories, none)

end generic

/-! ## Theorems -/

/-! ### Rounding to binary64 -/

namespace F64

theorem log2_shift (n j : Nat) (h : 2 ^ j ≤ n) : Nat.log2 n = j + Nat.log2 (n / 2 ^ j) := by
  have hp : 0 < 2 ^ j := Nat.two_pow_pos _
  have hn : n ≠ 0 := by omega
  have hq : n / 2 ^ j ≠ 0 := by
    have : 1 ≤ n / 2 ^ j := (Nat.le_div_iff_mul_le hp).2 (by simpa using h)
    omega
  apply Nat.le_antisymm
  · have h1 : n < 2 ^ (j + Nat.log2 (n / 2 ^ j) + 1) := by
      have := @Nat.lt_log2_self (n / 2 ^ j)
      have h2 : n < 2 ^ ((n / 2 ^ j).log2 + 1) * 2 ^ j := (Nat.div_lt_iff_lt_mul hp).1 this
      calc n < 2 ^ ((n / 2 ^ j).log2 + 1) * 2 ^ j := h2
        _ = 2 ^ (j + Nat.log2 (n / 2 ^ j) + 1) := by rw [← pow_add]; congr 1; omega
    have := (Nat.log2_lt hn).2 h1
    omega
  · apply (Nat.le_log2 hn).2
    have h1 : 2 ^ Nat.log2 (n / 2 ^ j) ≤ n / 2 ^ j := Nat.log2_self_le hq
    have h2 := (Nat.le_div_iff_mul_le hp).1 h1
    calc 2 ^ (j + (n / 2 ^ j).log2) = 2 ^ (n / 2 ^ j).log2 * 2 ^ j := by rw [← pow_add]; congr 1; omega
      _ ≤ n := h2

theorem log2d_eq (k : Nat) : ∀ n, n < 2 ^ 2 ^ k → log2d k n = Nat.log2 n := by
  induction k with
  | zero =>
    intro n hn
    have : n = 0 ∨ n = 1 := by simp at hn; omega
    rcases this with rfl | rfl <;> simp [log2d, Nat.log2]
  | succ k ih =>
    intro n hn
    unfold log2d
    split
    · next h => exact ih n h
    · next h =>
      have h : 2 ^ 2 ^ k ≤ n := Nat.le_of_not_lt h
      have hp : 0 < 2 ^ 2 ^ k := Nat.two_pow_pos _
      have hlt : n / 2 ^ 2 ^ k < 2 ^ 2 ^ k := by
        apply (Nat.div_lt_iff_lt_mul hp).2
        calc n < 2 ^ 2 ^ (k + 1) := hn
          _ = 2 ^ 2 ^ k * 2 ^ 2 ^ k := by rw [← pow_add]; congr 1; rw [pow_succ]; omega
      rw [ih _ hlt, log2_shift n (2 ^ k) h]

theorem two_pow_ulpExp_le (q : Nat) (h0 : 0 < q) (hq : q < huge) : 2 ^ ulpExp q ≤ q := by
  unfold ulpExp
  split
  · simpa using h0
  · have hlt : q < 2 ^ 2 ^ 12 := lt_of_lt_of_le hq (by unfold huge; norm_num)
    rw [log2d_eq 12 q hlt]
    calc 2 ^ (q.log2 - 52) ≤ 2 ^ q.log2 := Nat.pow_le_pow_right (by norm_num) (by omega)
      _ ≤ q := Nat.log2_self_le (by omega)

/-- Shape of a successful rounding: a multiple of the grid spacing, not below the floor. -/
theorem roundNat_some (num den n : Nat) (hr : roundNat num den = some n) :
    num / den < huge ∧ n < huge ∧
      ∃ m', num / (den * 2 ^ ulpExp (num / den)) ≤ m' ∧
        m' ≤ num / (den * 2 ^ ulpExp (num / den)) + 1 ∧ n = m' * 2 ^ ulpExp (num / den) := by
  unfold roundNat at hr
  simp only at hr
  by_cases hq : huge ≤ num / den
  · rw [if_pos hq] at hr; exact absurd hr (by simp)
  · rw [if_neg hq] at hr
    generalize ulpExp (num / den) = s at hr ⊢
    generalize hm : (if den * 2 ^ s < 2 * (num % (den * 2 ^ s)) ∨
        (2 * (num % (den * 2 ^ s)) = den * 2 ^ s ∧ num / (den * 2 ^ s) % 2 = 1)
        then num / (den * 2 ^ s) + 1 else num / (den * 2 ^ s)) = m' at hr
    by_cases ho : huge ≤ m' * 2 ^ s
    · rw [if_pos ho] at hr; exact absurd hr (by simp)
    · rw [if_neg ho] at hr
      simp only [Option.some.injEq] at hr
      refine ⟨Nat.lt_of_not_le hq, by omega, m', ?_, ?_, hr.symm⟩
      · rw [← hm]; split <;> omega
      · rw [← hm]; split <;> omega

/-- A rounded magnitude is at least every power of two below the exact quotient. -/
theorem roundNat_ge_pow (num den j n : Nat) (hden : 0 < den) (h : 2 ^ j * den ≤ num)
    (hr : roundNat num den = some n) : 2 ^ j ≤ n := by
  obtain ⟨hq, -, m', hm', -, rfl⟩ := roundNat_some num den n hr
  have hjq : 2 ^ j ≤ num / den := (Nat.le_div_iff_mul_le hden).2 h
  have hq0 : 0 < num / den := lt_of_lt_of_le (Nat.two_pow_pos j) hjq
  have hs := two_pow_ulpExp_le _ hq0 hq
  generalize ulpExp (num / den) = s at hs hm'
  have hm : num / (den * 2 ^ s) = num / den / 2 ^ s := (Nat.div_div_eq_div_mul _ _ _).symm
  have hps : 0 < 2 ^ s := Nat.two_pow_pos s
  have hfloor : 2 ^ j ≤ num / (den * 2 ^ s) * 2 ^ s := by
    rw [hm]
    rcases Nat.le_total s j with hsj | hjs
    · have : 2 ^ (j - s) ≤ num / den / 2 ^ s := by
        apply (Nat.le_div_iff_mul_le hps).2
        rw [← pow_add]
        have : j - s + s = j := by omega
        rw [this]; exact hjq
      calc 2 ^ j = 2 ^ (j - s) * 2 ^ s := by rw [← pow_add]; congr 1; omega
        _ ≤ num / den / 2 ^ s * 2 ^ s := Nat.mul_le_mul_right _ this
    · have h1 : 1 ≤ num / den / 2 ^ s := (Nat.le_div_iff_mul_le hps).2 (by simpa using hs)
      calc 2 ^ j ≤ 2 ^ s := Nat.pow_le_pow_right (by norm_num) hjs
        _ = 1 * 2 ^ s := by simp
        _ ≤ num / den / 2 ^ s * 2 ^ s := Nat.mul_le_mul_right _ h1
  exact le_trans hfloor (Nat.mul_le_mul_right _ hm')

theorem roundNat_zero (den : Nat) : roundNat 0 den = some 0 := by
  simp [roundNat, huge, ulpExp]

theorem ulpExp_double (q q' : Nat) (hq : 2 ^ 52 ≤ q) (h1 : 2 * q ≤ q') (h2 : q' ≤ 2 * q + 1)
    (h3 : q' < huge) : ulpExp q' = ulpExp q + 1 := by
  have hlt' : q' < 2 ^ 2 ^ 12 := lt_of_lt_of_le h3 (by unfold huge; norm_num)
  have hlt : q < 2 ^ 2 ^ 12 := by omega
  have hdiv : q' / 2 ^ 1 = q := by omega
  have hlog : Nat.log2 q' = Nat.log2 q + 1 := by
    rw [log2_shift q' 1 (by omega), hdiv]; omega
  have h53 : ¬ q' < 2 ^ 53 := by omega
  have h52 : 52 ≤ Nat.log2 q := (Nat.le_log2 (by omega)).2 hq
  unfold ulpExp
  rw [if_neg h53, log2d_eq 12 q' hlt', hlog]
  split
  · next h =>
    have : Nat.log2 q < 53 := (Nat.log2_lt (by omega)).2 h
    omega
  · rw [log2d_eq 12 q hlt]; omega

/-- Doubling commutes with rounding in the normal range. -/
theorem roundNat_double (num den n' : Nat) (hden : 0 < den) (hn : 2 ^ 52 * den ≤ num)
    (h : roundNat (2 * num) den = some n') : ∃ n, roundNat num den = some n ∧ n' = 2 * n := by
  have hq : 2 ^ 52 ≤ num / den := (Nat.le_div_iff_mul_le hden).2 hn
  obtain ⟨hq', hn', -⟩ := roundNat_some _ _ _ h
  have h1 : 2 * (num / den) ≤ 2 * num / den := by
    apply (Nat.le_div_iff_mul_le hden).2
    have := Nat.div_mul_le_self num den
    nlinarith
  have h2 : 2 * num / den ≤ 2 * (num / den) + 1 := by
    apply Nat.le_of_lt_succ
    apply (Nat.div_lt_iff_lt_mul hden).2
    have := Nat.lt_div_mul_add (a := num) hden
    nlinarith
  have hs := ulpExp_double _ _ hq h1 h2 hq'
  have hqh : ¬ huge ≤ num / den := by omega
  have hqh' : ¬ huge ≤ 2 * num / den := by omega
  unfold roundNat at h ⊢
  simp only [if_neg hqh, if_neg hqh'] at h ⊢
  rw [hs] at h
  have hD : den * 2 ^ (ulpExp (num / den) + 1) = 2 * (den * 2 ^ ulpExp (num / den)) := by
    rw [pow_succ]; ring
  rw [hD, Nat.mul_div_mul_left _ _ (by norm_num : 0 < 2), Nat.mul_mod_mul_left] at h
  generalize ulpExp (num / den) = s at h ⊢
  generalize den * 2 ^ s = D at h ⊢
  have hc : (2 * D < 2 * (2 * (num % D)) ∨ 2 * (2 * (num % D)) = 2 * D ∧ num / D % 2 = 1) ↔
      (D < 2 * (num % D) ∨ 2 * (num % D) = D ∧ num / D % 2 = 1) := by omega
  simp only [hc] at h
  generalize (if D < 2 * (num % D) ∨ 2 * (num % D) = D ∧ num / D % 2 = 1 then num / D + 1
    else num / D) = m at h ⊢
  have he : m * 2 ^ (s + 1) = 2 * (m * 2 ^ s) := by rw [pow_succ]; ring
  rw [he] at h
  by_cases ho : huge ≤ 2 * (m * 2 ^ s)
  · rw [if_pos ho] at h; exact absurd h (by simp)
  · rw [if_neg ho] at h
    have ho' : ¬ huge ≤ m * 2 ^ s := by omega
    refine ⟨m * 2 ^ s, by rw [if_neg ho'], ?_⟩
    simpa using h.symm

/-- An exactly representable quotient is not changed by rounding. -/
theorem roundNat_exact (n d : Nat) (hn : Representable n) (hd : 0 < d) :
    roundNat (n * d) d = some n := by
  obtain ⟨hlt, hmod⟩ := hn
  unfold roundNat
  have hq : n * d / d = n := Nat.mul_div_cancel _ hd
  simp only [hq, if_neg (by omega : ¬ huge ≤ n)]
  generalize ulpExp n = s at hmod
  obtain ⟨t, rfl⟩ : 2 ^ s ∣ n := Nat.dvd_of_mod_eq_zero hmod
  have hD : 0 < d * 2 ^ s := Nat.mul_pos hd (Nat.two_pow_pos s)
  have hnum : 2 ^ s * t * d = t * (d * 2 ^ s) := by ring
  rw [hnum, Nat.mul_div_cancel _ hD, Nat.mul_mod_left]
  have : ¬ (d * 2 ^ s < 2 * 0 ∨ 2 * 0 = d * 2 ^ s ∧ t % 2 = 1) := by omega
  rw [if_neg this]
  have : t * 2 ^ s = 2 ^ s * t := by ring
  rw [this, if_neg (by omega)]

theorem ulpExp_le_of_lt (n s : Nat) (hn : n < 2 ^ (53 + s)) (hh : n < huge) : ulpExp n ≤ s := by
  unfold ulpExp
  split
  · omega
  · next h =>
    have hlt : n < 2 ^ 2 ^ 12 := lt_of_lt_of_le hh (by unfold huge; norm_num)
    rw [log2d_eq 12 n hlt]
    have : Nat.log2 n < 53 + s := (Nat.log2_lt (by omega)).2 hn
    omega

theorem ulpExp_two_pow (s : Nat) (hh : 2 ^ (53 + s) < huge) : ulpExp (2 ^ (53 + s)) = s + 1 := by
  have h53 : (2 : Nat) ^ 53 ≤ 2 ^ (53 + s) := Nat.pow_le_pow_right (by norm_num) (by omega)
  have hlt : 2 ^ (53 + s) < 2 ^ 2 ^ 12 := lt_of_lt_of_le hh (by unfold huge; norm_num)
  unfold ulpExp
  rw [if_neg (by omega), log2d_eq 12 _ hlt, Nat.log2_two_pow]
  omega

theorem floor_lt_two_pow_53 (q : Nat) (hq : q < huge) : q / 2 ^ ulpExp q < 2 ^ 53 := by
  unfold ulpExp
  split
  · next h => simpa using h
  · next h =>
    have hlt : q < 2 ^ 2 ^ 12 := lt_of_lt_of_le hq (by unfold huge; norm_num)
    rw [log2d_eq 12 q hlt]
    have h53 : 53 ≤ Nat.log2 q := (Nat.le_log2 (by omega)).2 (Nat.le_of_not_lt h)
    apply (Nat.div_lt_iff_lt_mul (Nat.two_pow_pos _)).2
    rw [← pow_add]
    have : 53 + (q.log2 - 52) = q.log2 + 1 := by omega
    rw [this]
    exact Nat.lt_log2_self

/-- Every rounded magnitude lies on the binary64 grid. -/
theorem roundNat_representable (num den n : Nat) (hr : roundNat num den = some n) :
    Representable n := by
  obtain ⟨hq, hn, m', -, hm', rfl⟩ := roundNat_some num den n hr
  have hm : num / (den * 2 ^ ulpExp (num / den)) < 2 ^ 53 := by
    rw [← Nat.div_div_eq_div_mul]; exact floor_lt_two_pow_53 _ hq
  generalize ulpExp (num / den) = s at hm hm' hn
  refine ⟨hn, ?_⟩
  have hle : m' ≤ 2 ^ 53 := by omega
  rcases Nat.lt_or_eq_of_le hle with h | h
  · have h1 : m' * 2 ^ s < 2 ^ (53 + s) := by
      rw [pow_add]; exact Nat.mul_lt_mul_of_pos_right h (Nat.two_pow_pos s)
    have h2 := ulpExp_le_of_lt _ s h1 hn
    have : 2 ^ ulpExp (m' * 2 ^ s) ∣ m' * 2 ^ s :=
      Dvd.dvd.mul_left (Nat.pow_dvd_pow 2 h2) m'
    exact Nat.mod_eq_zero_of_dvd this
  · subst h
    rw [← pow_add] at hn ⊢
    rw [ulpExp_two_pow s hn]
    exact Nat.mod_eq_zero_of_dvd (Nat.pow_dvd_pow 2 (by omega))

theorem round_valid (neg : Bool) (num den : Nat) : Valid (round neg num den) := by
  unfold round
  cases h : roundNat num den with
  | none => trivial
  | some n => exact roundNat_representable num den n h

theorem round_ne_nan (neg : Bool) (num den : Nat) : round neg num den ≠ nan := by
  unfold round; split <;> simp

theorem round_fin_iff (neg s : Bool) (num den n : Nat) :
    round neg num den = fin s n ↔ s = neg ∧ roundNat num den = some n := by
  unfold round
  cases roundNat num den with
  | none => simp
  | some m => simp; tauto

/-- Doubling commutes with a rounding whose exact value is zero or in the normal range,
as long as the doubled result is finite. -/
theorem round_double (neg : Bool) (num den : Nat) (hden : 0 < den)
    (hn : num = 0 ∨ 2 ^ 52 * den ≤ num) (hf : (round neg (2 * num) den).isFinite = true) :
    ∃ n, round neg num den = fin neg n ∧ round neg (2 * num) den = fin neg (2 * n) := by
  rcases hn with rfl | hn
  · exact ⟨0, by simp [round, roundNat_zero], by simp [round, roundNat_zero]⟩
  · cases h : roundNat (2 * num) den with
    | none => simp [round, h, isFinite] at hf
    | some n' =>
      obtain ⟨n, h1, rfl⟩ := roundNat_double num den n' hden hn h
      exact ⟨n, by simp [round, h1], by simp [round, h]⟩

theorem mul_valid (x y : F64) : Valid (mul x y) := by
  cases x <;> cases y <;> simp only [mul] <;> first
    | trivial
    | exact round_valid _ _ _
    | (split <;> trivial)

theorem div_valid (x y : F64) : Valid (div x y) := by
  cases x <;> cases y <;> simp only [div] <;> first
    | trivial
    | (split <;> first | exact round_valid _ _ _ | (split <;> trivial))

theorem add_valid (x y : F64) : Valid (add x y) := by
  cases x <;> cases y <;> simp only [add] <;> first
    | trivial
    | (split <;> trivial)
    | (repeat' split) <;> first | exact round_valid _ _ _ | (show Representable 0; decide)

/-- The arithmetic agrees with binary64 hardware on reference values: the constants `0.45`,
`0.1 + 0.2 = 0.30000000000000004`, `1 / 3`, the smallest subnormal halved (which rounds to
zero), an overflow to `+Inf`, and the calories of a 1000-step, one-hour walk. -/
theorem reference_values :
    ofRatio 45 100 = fin false (8106479329266893 * 2 ^ 1020) ∧
    add (ofRatio 1 10) (ofRatio 2 10) = fin false (1351079888211149 * 2 ^ 1022) ∧
    div (ofInt 1) (ofInt 3) = fin false (6004799503160661 * 2 ^ 1020) ∧
    mul (fin false 1) (ofRatio 5 10) = fin false 0 ∧
    mul (ofRatio 1 1) (ofInt (-10)) = fin true (10 * one) ∧
    mul (fin false (2 ^ 2097)) (ofInt 2) = inf false ∧
    div (mul (mul (ofRatio 755 10) (ofRatio 81 100)) (ofInt 60)) (ofInt 60) =
      fin false (2151700275092521 * 2 ^ 1029) := by
  decide

end F64

/-! ### Signs and comparisons of floats -/

namespace F64

theorem round_gePow (neg : Bool) (num den j : Nat) (hden : 0 < den) (h : 2 ^ j * den ≤ num) :
    GePow neg j (round neg num den) := by
  unfold round
  cases hr : roundNat num den with
  | none => simp [GePow]
  | some n => exact ⟨rfl, roundNat_ge_pow num den j n hden h hr⟩

theorem GePow.isPos {j : Nat} {x : F64} (h : GePow false j x) : IsPos x := by
  cases x with
  | nan => exact h
  | inf s => cases s <;> simp_all [GePow, IsPos]
  | fin s n =>
    obtain ⟨rfl, hn⟩ := h
    exact lt_of_lt_of_le (Nat.two_pow_pos j) hn

theorem GePow.isNeg {j : Nat} {x : F64} (h : GePow true j x) : IsNeg x := by
  cases x with
  | nan => exact h
  | inf s => cases s <;> simp_all [GePow, IsNeg]
  | fin s n =>
    obtain ⟨rfl, hn⟩ := h
    exact lt_of_lt_of_le (Nat.two_pow_pos j) hn

theorem ofInt_zero : ofInt 0 = fin false 0 := by decide

theorem ofInt_pos (k : Int) (h : 0 < k) : GePow false 1074 (ofInt k) := by
  unfold ofInt
  have : decide (k < 0) = false := by simp; omega
  rw [this]
  apply round_gePow _ _ _ _ (by norm_num)
  have : 0 < k.natAbs := by omega
  show one * 1 ≤ k.natAbs * one
  rw [Nat.mul_one]
  exact Nat.le_mul_of_pos_left _ this

theorem ofInt_neg (k : Int) (h : k < 0) : GePow true 1074 (ofInt k) := by
  unfold ofInt
  have : decide (k < 0) = true := by simp; omega
  rw [this]
  apply round_gePow _ _ _ _ (by norm_num)
  have : 0 < k.natAbs := by omega
  show one * 1 ≤ k.natAbs * one
  rw [Nat.mul_one]
  exact Nat.le_mul_of_pos_left _ this

theorem IsPos.not_le_zero {x : F64} (h : IsPos x) : le x zero = false := by
  cases x with
  | nan => rfl
  | inf s => cases s <;> simp_all [IsPos, le, zero]
  | fin s n =>
    cases s
    · have h : 0 < n := h
      simp [le, zero, signed]; omega
    · exact absurd h (by simp [IsPos])

theorem IsNeg.le_zero {x : F64} (h : IsNeg x) : le x zero = true := by
  cases x with
  | nan => exact absurd h (by simp [IsNeg])
  | inf s => cases s <;> simp_all [IsNeg, le, zero]
  | fin s n =>
    cases s
    · exact absurd h (by simp [IsNeg])
    · simp [le, zero, signed]

theorem div_isPos {x : F64} (nc : Nat) (hx : GePow false 1074 x) (h0 : 0 < nc)
    (h1 : nc ≤ one * one) : IsPos (div x (fin false nc)) := by
  cases x with
  | nan => exact absurd hx (by simp [GePow])
  | inf s => obtain rfl : s = false := hx; simp [div, IsPos]
  | fin s n =>
    obtain ⟨rfl, hn⟩ := hx
    have hn : one ≤ n := hn
    have : nc ≠ 0 := by omega
    simp only [div, this, if_false, Bool.xor_false]
    apply GePow.isPos (j := 0)
    apply round_gePow _ _ _ _ h0
    calc 2 ^ 0 * nc = nc := by simp
      _ ≤ one * one := h1
      _ ≤ n * one := Nat.mul_le_mul_right _ hn

theorem div_isNeg {x : F64} (nc : Nat) (hx : GePow true 1074 x) (h0 : 0 < nc)
    (h1 : nc ≤ one * one) : IsNeg (div x (fin false nc)) := by
  cases x with
  | nan => exact absurd hx (by simp [GePow])
  | inf s => obtain rfl : s = true := hx; simp [div, IsNeg]
  | fin s n =>
    obtain ⟨rfl, hn⟩ := hx
    have hn : one ≤ n := hn
    have : nc ≠ 0 := by omega
    simp only [div, this, if_false, Bool.xor_false]
    apply GePow.isNeg (j := 0)
    apply round_gePow _ _ _ _ h0
    calc 2 ^ 0 * nc = nc := by simp
      _ ≤ one * one := h1
      _ ≤ n * one := Nat.mul_le_mul_right _ hn

theorem div_zero_fin (nc : Nat) (h0 : 0 < nc) : div (fin false 0) (fin false nc) = fin false 0 := by
  have : nc ≠ 0 := by omega
  simp [div, this, round, roundNat_zero]

theorem round_isPos (num : Nat) (h : 0 < num) : IsPos (round false num 1) :=
  GePow.isPos (j := 0) (round_gePow _ _ _ _ (by norm_num) (by simpa using h))

theorem round_isNeg (num : Nat) (h : 0 < num) : IsNeg (round true num 1) :=
  GePow.isNeg (j := 0) (round_gePow _ _ _ _ (by norm_num) (by simpa using h))

theorem add_isPos {x y : F64} (hx : x = fin false 0 ∨ IsPos x) (hy : y = fin false 0 ∨ IsPos y)
    (h : IsPos x ∨ IsPos y) : IsPos (add x y) := by
  have key : ∀ x y : F64, (x = fin false 0 ∨ IsPos x) → (y = fin false 0 ∨ IsPos y) →
      ¬ (x = fin false 0 ∧ y = fin false 0) → IsPos (add x y) := by
    intro x y hx hy hne
    cases x with
    | nan => simp [IsPos] at hx
    | inf s =>
      cases s
      · cases y with
        | nan => simp [IsPos] at hy
        | inf t => cases t <;> simp_all [IsPos, add]
        | fin t m => simp [add, IsPos]
      · simp [IsPos] at hx
    | fin s n =>
      cases s
      · cases y with
        | nan => simp [IsPos] at hy
        | inf t => cases t <;> simp_all [IsPos, add]
        | fin t m =>
          cases t
          · simp only [add, if_true]
            apply round_isPos
            simp [IsPos] at hx hy hne
            omega
          · simp [IsPos] at hy
      · simp [IsPos] at hx
  apply key x y hx hy
  rintro ⟨rfl, rfl⟩
  simp [IsPos] at h

theorem add_isNeg {x y : F64} (hx : x = fin false 0 ∨ IsNeg x) (hy : y = fin false 0 ∨ IsNeg y)
    (h : IsNeg x ∨ IsNeg y) : IsNeg (add x y) := by
  cases x with
  | nan => simp [IsNeg] at hx
  | inf s =>
    cases s
    · simp [IsNeg] at hx
    · cases y with
      | nan => simp [IsNeg] at hy
      | inf t => cases t <;> simp_all [IsNeg, add]
      | fin t m => simp [add, IsNeg]
  | fin s n =>
    cases y with
    | nan => simp [IsNeg] at hy
    | inf t => cases t <;> simp_all [IsNeg, add]
    | fin t m =>
      cases s <;> cases t
      · simp [IsNeg] at hx hy h
      · have hn : n = 0 := by simpa [IsNeg] using hx
        have hm : 0 < m := by simpa [IsNeg] using hy
        subst hn
        have h1 : ¬ m < 0 := by omega
        simp only [add, Bool.false_eq_true, if_false, h1, hm, if_true, Nat.sub_zero]
        exact round_isNeg m hm
      · have hm : m = 0 := by simpa [IsNeg] using hy
        have hn : 0 < n := by simpa [IsNeg] using hx
        subst hm
        simp only [add, Bool.true_eq_false, if_false, hn, if_true, Nat.sub_zero]
        exact round_isNeg n hn
      · simp only [add, if_true]
        apply round_isNeg
        simp [IsNeg] at hx hy h
        omega

/-- Sign of `float64(d / U) + float64(d % U) / c`, the shape shared by the
`Seconds`, `Minutes` and `Hours` methods. -/
theorem split_sign (d U : Int) (nc : Nat) (hU : 0 < U) (h0 : 0 < nc) (h1 : nc ≤ one * one) :
    (0 < d → IsPos (add (ofInt (d.tdiv U)) (div (ofInt (d.tmod U)) (fin false nc)))) ∧
    (d < 0 → IsNeg (add (ofInt (d.tdiv U)) (div (ofInt (d.tmod U)) (fin false nc)))) ∧
    (d = 0 → add (ofInt (d.tdiv U)) (div (ofInt (d.tmod U)) (fin false nc)) = fin false 0) := by
  have hsum := Int.tdiv_add_tmod d U
  refine ⟨fun hd => ?_, fun hd => ?_, fun hd => ?_⟩
  · have hq : 0 ≤ d.tdiv U := Int.tdiv_nonneg (le_of_lt hd) (le_of_lt hU)
    have hr : 0 ≤ d.tmod U := Int.tmod_nonneg U (le_of_lt hd)
    have hA : ofInt (d.tdiv U) = fin false 0 ∨ IsPos (ofInt (d.tdiv U)) := by
      rcases eq_or_lt_of_le hq with h | h
      · left; rw [← h]; exact ofInt_zero
      · right; exact (ofInt_pos _ h).isPos
    have hB : div (ofInt (d.tmod U)) (fin false nc) = fin false 0 ∨
        IsPos (div (ofInt (d.tmod U)) (fin false nc)) := by
      rcases eq_or_lt_of_le hr with h | h
      · left; rw [← h, ofInt_zero]; exact div_zero_fin nc h0
      · right; exact div_isPos nc (ofInt_pos _ h) h0 h1
    apply add_isPos hA hB
    by_cases hz : d.tdiv U = 0
    · right
      have : 0 < d.tmod U := by rw [hz] at hsum; simp at hsum; omega
      exact div_isPos nc (ofInt_pos _ this) h0 h1
    · left
      exact (ofInt_pos _ (lt_of_le_of_ne hq (Ne.symm hz))).isPos
  · have hq : d.tdiv U ≤ 0 := by
      have := Int.tdiv_nonneg (a := -d) (b := U) (by omega) (le_of_lt hU)
      rw [Int.neg_tdiv] at this; omega
    have hr : d.tmod U ≤ 0 := by
      have h2 := Int.tmod_nonneg U (a := -d) (by omega)
      have h3 := Int.tdiv_add_tmod (-d) U
      rw [Int.neg_tdiv] at h3
      have : (-d).tmod U = -(d.tmod U) := by linarith
      omega
    have hA : ofInt (d.tdiv U) = fin false 0 ∨ IsNeg (ofInt (d.tdiv U)) := by
      rcases eq_or_lt_of_le hq with h | h
      · left; rw [h]; exact ofInt_zero
      · right; exact (ofInt_neg _ h).isNeg
    have hB : div (ofInt (d.tmod U)) (fin false nc) = fin false 0 ∨
        IsNeg (div (ofInt (d.tmod U)) (fin false nc)) := by
      rcases eq_or_lt_of_le hr with h | h
      · left; rw [h, ofInt_zero]; exact div_zero_fin nc h0
      · right; exact div_isNeg nc (ofInt_neg _ h) h0 h1
    apply add_isNeg hA hB
    by_cases hz : d.tdiv U = 0
    · right
      have : d.tmod U < 0 := by rw [hz] at hsum; simp at hsum; omega
      exact div_isNeg nc (ofInt_neg _ this) h0 h1
    · left
      exact (ofInt_neg _ (lt_of_le_of_ne hq hz)).isNeg
  · subst hd
    simp only [Int.zero_tdiv, Int.zero_tmod, ofInt_zero, div_zero_fin nc h0]
    decide

theorem mul_comm (x y : F64) : mul x y = mul y x := by
  cases x <;> cases y <;> simp [mul, Bool.xor_comm, Nat.mul_comm]

theorem not_le_of_lt {x y : F64} (h : lt x y = true) : le y x = false := by
  cases x with
  | nan => simp [lt] at h
  | inf a =>
    cases y with
    | nan => simp [lt] at h
    | inf b => cases a <;> cases b <;> simp_all [lt, le]
    | fin b m => cases a <;> simp_all [lt, le]
  | fin a n =>
    cases y with
    | nan => simp [lt] at h
    | inf b => cases b <;> simp_all [lt, le]
    | fin b m => simp only [lt, decide_eq_true_eq] at h; simp [le]; omega

theorem eq_self {x : F64} (h : x ≠ nan) : eq x x = true := by
  cases x with
  | nan => exact absurd rfl h
  | inf a => simp [eq]
  | fin a n => simp [eq]

theorem half_mul_ne_nan {x : F64} (h : x ≠ nan) : mul (ofRatio 5 10) x ≠ nan := by
  have hc : ofRatio 5 10 = fin false (2 ^ 1073) := by decide
  rw [hc]
  cases x with
  | nan => exact absurd rfl h
  | inf a => simp [mul]
  | fin a n => simp only [mul]; exact round_ne_nan _ _ _

theorem mul_isFinite {x y : F64} (h : (mul x y).isFinite = true) :
    x.isFinite = true ∧ y.isFinite = true := by
  cases x with
  | nan => simp [mul, isFinite] at h
  | inf a =>
    cases y with
    | nan => simp [mul, isFinite] at h
    | inf b => simp [mul, isFinite] at h
    | fin b n => by_cases hn : n = 0 <;> simp [mul, isFinite, hn] at h
  | fin a n =>
    cases y with
    | nan => simp [mul, isFinite] at h
    | inf b => by_cases hn : n = 0 <;> simp [mul, isFinite, hn] at h
    | fin b m => simp [isFinite]

theorem mul_fin_fin (a b : Bool) (n1 n2 : Nat) :
    mul (fin a n1) (fin b n2) = round (xor a b) (n1 * n2) one := rfl

theorem div_fin_fin (a : Bool) (n c : Nat) (hc : c ≠ 0) :
    div (fin a n) (fin false c) = round a (n * one) c := by
  simp [div, hc]

theorem mul_two_fin (s : Bool) (n : Nat) (hrep : Representable (2 * n)) :
    mul (ofInt 2) (fin s n) = fin s (2 * n) := by
  have h2 : ofInt 2 = fin false (2 * one) := by decide
  rw [h2, mul_fin_fin, Bool.false_xor]
  have e : 2 * one * n = 2 * n * one := by ring
  rw [e]
  exact (round_fin_iff _ _ _ _ _).2 ⟨rfl, roundNat_exact _ _ hrep (by decide)⟩

theorem div_fin_isFinite {x : F64} {c : Nat} (h : (div x (fin false c)).isFinite = true) :
    x.isFinite = true := by
  cases x <;> simp_all [div, isFinite]

end F64

namespace time

theorem Duration.Seconds_le_zero (d : Duration) : F64.le (Duration.Seconds d) F64.zero = true ↔ d ≤ 0 := by
  have hc : F64.ofInt 1000000000 = F64.fin false (1000000000 * F64.one) := by decide
  have h := F64.split_sign d Second (1000000000 * F64.one) (by decide) (by decide) (by decide)
  unfold Duration.Seconds
  simp only [hc]
  rcases lt_trichotomy d 0 with hd | hd | hd
  · simp [(h.2.1 hd).le_zero, le_of_lt hd]
  · rw [h.2.2 hd]; simp [hd]; decide
  · simp [(h.1 hd).not_le_zero, hd]

end time

/-! ### The formula engine -/

namespace spentenergy

theorem ofInt_double (k : Int) (hf : (F64.ofInt (2 * k)).isFinite = true) :
    ∃ s n, F64.ofInt k = .fin s n ∧ F64.ofInt (2 * k) = .fin s (2 * n) := by
  have hs : decide (2 * k < 0) = decide (k < 0) := by
    simp only [decide_eq_decide]; omega
  have hab : (2 * k).natAbs = 2 * k.natAbs := by omega
  unfold F64.ofInt at hf ⊢
  rw [hs, hab, Nat.mul_assoc] at hf ⊢
  have hn : k.natAbs * F64.one = 0 ∨ 2 ^ 52 * 1 ≤ k.natAbs * F64.one := by
    rcases Nat.eq_zero_or_pos k.natAbs with h | h
    · left; simp [h]
    · right
      calc 2 ^ 52 * 1 ≤ F64.one := by decide
        _ ≤ k.natAbs * F64.one := Nat.le_mul_of_pos_left _ h
  obtain ⟨n, h1, h2⟩ := F64.round_double _ _ 1 (by norm_num) hn hf
  exact ⟨_, n, h1, h2⟩

theorem mInKm_eq : mInKm = .fin false (1000 * F64.one) := by decide

/-- C1: `RunningSpentCalories` returns the value 0 with `ErrInvalidParams` exactly when
`steps <= 0`, `weight <= 0`, `height <= 0` or `duration <= 0` (the code tests
`duration.Seconds() <= 0`, which holds exactly for durations of at most 0 ns); in every
other case it returns no error. -/
theorem C1_running_invalid_params_iff (steps : Int) (weight height : F64)
    (duration : time.Duration) :
    (RunningSpentCalories steps weight height duration = (F64.zero, some ErrInvalidParams) ↔
      (steps ≤ 0 ∨ F64.le weight F64.zero = true ∨ F64.le height F64.zero = true
        ∨ duration ≤ 0)) ∧
    ((RunningSpentCalories steps weight height duration).2 ≠ none ↔
      (steps ≤ 0 ∨ F64.le weight F64.zero = true ∨ F64.le height F64.zero = true
        ∨ duration ≤ 0)) ∧
    (¬ (steps ≤ 0 ∨ F64.le weight F64.zero = true ∨ F64.le height F64.zero = true
        ∨ duration ≤ 0) →
      (RunningSpentCalories steps weight height duration).2 = none) := by
  unfold RunningSpentCalories
  simp only [time.Duration.Seconds_le_zero]
  by_cases h : steps ≤ 0 ∨ F64.le weight F64.zero = true ∨ F64.le height F64.zero = true
      ∨ duration ≤ 0
  · simp [h]
  · simp [h]

/-- C2: for valid arguments `RunningSpentCalories` returns
`weight * MeanSpeed(steps, height, duration) * duration.Minutes() / 60` without error,
and `MeanSpeed` is `Distance(steps, height) / duration.Hours()`. -/
theorem C2_running_formula (steps : Int) (weight height : F64) (duration : time.Duration)
    (hs : 0 < steps) (hw : F64.lt F64.zero weight = true)
    (hh : F64.lt F64.zero height = true) (hd : 0 < duration) :
    RunningSpentCalories steps weight height duration =
      (F64.div (F64.mul (F64.mul weight (MeanSpeed steps height duration))
        (time.Duration.Minutes duration)) (F64.ofInt 60), none) ∧
    MeanSpeed steps height duration =
      F64.div (Distance steps height) (time.Duration.Hours duration) := by
  have h1 : ¬ steps ≤ 0 := by omega
  have h2 : ¬ duration ≤ 0 := not_le.mpr hd
  constructor
  · unfold RunningSpentCalories
    simp only [time.Duration.Seconds_le_zero]
    simp [h1, h2, F64.not_le_of_lt hw, F64.not_le_of_lt hh, minInH]
  · simp [MeanSpeed, h2]

/-- C2 at a concrete input: 1000 steps, 75 kg, 1.8 m, one hour. -/
theorem C2_running_formula_witness :
    RunningSpentCalories 1000 (F64.ofInt 75) (F64.ofRatio 18 10) (1 * time.Hour) =
      (F64.div (F64.mul (F64.mul (F64.ofInt 75)
        (MeanSpeed 1000 (F64.ofRatio 18 10) (1 * time.Hour)))
        (time.Duration.Minutes (1 * time.Hour))) (F64.ofInt 60), none) ∧
    MeanSpeed 1000 (F64.ofRatio 18 10) (1 * time.Hour) =
      F64.div (Distance 1000 (F64.ofRatio 18 10)) (time.Duration.Hours (1 * time.Hour)) :=
  C2_running_formula 1000 (F64.ofInt 75) (F64.ofRatio 18 10) (1 * time.Hour)
    (by decide) (by decide) (by decide) (by decide)

/-- C3: `WalkingSpentCalories` returns an error exactly when `RunningSpentCalories` does on
the same arguments, the same one (`ErrInvalidParams`) and with value 0; when they
succeed the walking value is the float64 `0.5` times the running value, and the two
compare equal with `==` unless the running value is NaN. -/
theorem C3_walking_half_of_running (steps : Int) (weight height : F64)
    (duration : time.Duration) :
    (WalkingSpentCalories steps weight height duration).2 =
      (RunningSpentCalories steps weight height duration).2 ∧
    ((RunningSpentCalories steps weight height duration).2 ≠ none →
      WalkingSpentCalories steps weight height duration = (F64.zero, some ErrInvalidParams) ∧
      RunningSpentCalories steps weight height duration = (F64.zero, some ErrInvalidParams)) ∧
    ((RunningSpentCalories steps weight height duration).2 = none →
      (WalkingSpentCalories steps weight height duration).1 =
        F64.mul (F64.ofRatio 5 10) (RunningSpentCalories steps weight height duration).1) ∧
    ((RunningSpentCalories steps weight height duration).2 = none →
      (RunningSpentCalories steps weight height duration).1 ≠ F64.nan →
      F64.eq (WalkingSpentCalories steps weight height duration).1
        (F64.mul (F64.ofRatio 5 10) (RunningSpentCalories steps weight height duration).1)
        = true) := by
  have h3 : (RunningSpentCalories steps weight height duration).2 = none →
      (WalkingSpentCalories steps weight height duration).1 =
        F64.mul (F64.ofRatio 5 10) (RunningSpentCalories steps weight height duration).1 := by
    unfold WalkingSpentCalories
    by_cases h : steps ≤ 0 ∨ F64.le weight F64.zero = true ∨ F64.le height F64.zero = true
        ∨ F64.le (time.Duration.Seconds duration) F64.zero = true
    · simp [RunningSpentCalories, h]
    · simp [RunningSpentCalories, h, walkingCaloriesCoefficient, F64.mul_comm]
  refine ⟨?_, ?_, h3, ?_⟩
  · unfold WalkingSpentCalories
    by_cases h : steps ≤ 0 ∨ F64.le weight F64.zero = true ∨ F64.le height F64.zero = true
        ∨ F64.le (time.Duration.Seconds duration) F64.zero = true
    · simp [RunningSpentCalories, h]
    · simp [RunningSpentCalories, h]
  · unfold WalkingSpentCalories
    by_cases h : steps ≤ 0 ∨ F64.le weight F64.zero = true ∨ F64.le height F64.zero = true
        ∨ F64.le (time.Duration.Seconds duration) F64.zero = true
    · simp [RunningSpentCalories, h]
    · simp [RunningSpentCalories, h]
  · intro hok hnan
    rw [h3 hok]
    exact F64.eq_self (F64.half_mul_ne_nan hnan)

/-- C4 (amended): `Distance(steps, height)` is `steps * (height * 0.45) / 1000` for every
input; `Distance(2 * steps, height) = 2 * Distance(steps, height)` holds when `2 * steps`
fits the 64-bit int type, the computation for `steps` stays in the normal range and the
result for `2 * steps` is finite. -/
theorem C4_distance_linear_in_range :
    (∀ (steps : Int) (height : F64), Distance steps height =
      F64.div (F64.mul (F64.ofInt steps) (F64.mul height (F64.ofRatio 45 100)))
        (F64.ofInt 1000)) ∧
    (∀ (steps : Int) (height : F64), -2 ^ 63 ≤ 2 * steps → 2 * steps < 2 ^ 63 →
      DistanceNormal steps height → (Distance (2 * steps) height).isFinite = true →
      Distance (2 * steps) height = F64.mul (F64.ofInt 2) (Distance steps height)) := by
  refine ⟨fun steps height => rfl, ?_⟩
  intro steps height _ _ hN hf
  unfold Distance at hf ⊢
  simp only [mInKm_eq] at hf ⊢
  have hc : 1000 * F64.one ≠ 0 := by decide
  have hf1 := F64.div_fin_isFinite hf
  obtain ⟨hfa, hfb⟩ := F64.mul_isFinite hf1
  obtain ⟨sa, na, ha, ha2⟩ := ofInt_double steps hfa
  unfold DistanceNormal at hN
  rw [ha] at hN ⊢
  rw [ha2] at hf hf1 ⊢
  generalize F64.mul height stepLengthCoefficient = b at hN hf hf1 hfb ⊢
  cases b with
  | nan => simp [F64.isFinite] at hfb
  | inf s => simp [F64.isFinite] at hfb
  | fin sb nb =>
    simp only at hN
    obtain ⟨hab, hx⟩ := hN
    have e2 : 2 * na * nb = 2 * (na * nb) := by ring
    rw [F64.mul_fin_fin] at hx
    rw [F64.mul_fin_fin, e2] at hf1 hf ⊢
    rw [F64.mul_fin_fin]
    obtain ⟨nx, hx1, hx2⟩ := F64.round_double (xor sa sb) (na * nb) F64.one (by decide) hab hf1
    rw [hx1] at hx ⊢
    rw [hx2] at hf ⊢
    simp only at hx
    have e3 : 2 * nx * F64.one = 2 * (nx * F64.one) := by ring
    rw [F64.div_fin_fin _ _ _ hc, e3] at hf ⊢
    rw [F64.div_fin_fin _ _ _ hc]
    obtain ⟨ny, hy1, hy2⟩ := F64.round_double (xor sa sb) (nx * F64.one) (1000 * F64.one)
      (by decide) (hx.imp_left (fun h => by rw [h, Nat.zero_mul])) hf
    rw [hy1, hy2]
    have hrep : F64.Representable (2 * ny) :=
      F64.roundNat_representable _ _ _ ((F64.round_fin_iff _ _ _ _ _).1 hy2).2
    exact (F64.mul_two_fin _ _ hrep).symm

/-- C4 (amended) at a concrete input: 1000 steps and a height of 1.8 m. -/
theorem C4_distance_linear_in_range_witness :
    Distance (2 * 1000) (F64.ofRatio 18 10) =
      F64.mul (F64.ofInt 2) (Distance 1000 (F64.ofRatio 18 10)) :=
  C4_distance_linear_in_range.2 1000 (F64.ofRatio 18 10) (by decide) (by decide)
    (by decide) (by decide)

/-- C4 (as stated) fails: with `steps = 4` and `height = 2^1023` the product for `2 * steps`
overflows to `+Inf` while twice the distance for `steps` is finite. -/
theorem C4_distance_linear_counterexample :
    F64.Valid (.fin false (2 ^ 2097)) ∧
    Distance (2 * 4) (.fin false (2 ^ 2097)) = .inf false ∧
    (F64.mul (F64.ofInt 2) (Distance 4 (.fin false (2 ^ 2097)))).isFinite = true ∧
    Distance (2 * 4) (.fin false (2 ^ 2097)) ≠
      F64.mul (F64.ofInt 2) (Distance 4 (.fin false (2 ^ 2097))) := by
  decide

/-- C5: `MeanSpeed` returns exactly 0 for every duration of at most 0, whatever the steps
and the height. -/
theorem C5_meanSpeed_zero (steps : Int) (height : F64) (duration : time.Duration)
    (hd : duration ≤ 0) : MeanSpeed steps height duration = F64.zero := by
  simp [MeanSpeed, hd]

/-- C5 at a concrete input: negative steps, a NaN height and a duration of -5 s. -/
theorem C5_meanSpeed_zero_witness :
    MeanSpeed (-3) F64.nan (-5 * time.Second) = F64.zero :=
  C5_meanSpeed_zero (-3) F64.nan (-5 * time.Second) (by decide)

end spentenergy

/-! ### Splitting and integer parsing -/

namespace strings

theorem Split_ne_nil (s : GoString) (sep : Nat) : Split s sep ≠ [] := by
  induction s with
  | nil => simp [Split]
  | cons c cs ih =>
    unfold Split
    split
    · simp
    · split <;> simp

theorem Split_length (s : GoString) (sep : Nat) : (Split s sep).length = s.count sep + 1 := by
  induction s with
  | nil => simp [Split]
  | cons c cs ih =>
    unfold Split
    by_cases h : c = sep
    · subst h; simp [ih]
    · rw [if_neg h]
      have hc : List.count sep (c :: cs) = List.count sep cs := by
        rw [List.count_cons]; simp [h]
      rw [hc, ← ih]
      cases hs : Split cs sep with
      | nil => exact absurd hs (Split_ne_nil cs sep)
      | cons f fs => simp

theorem Split_no_sep (s : GoString) (sep : Nat) (h : sep ∉ s) : Split s sep = [s] := by
  induction s with
  | nil => rfl
  | cons c cs ih =>
    have hc : c ≠ sep := fun e => h (by simp [e])
    have hcs : sep ∉ cs := fun e => h (by simp [e])
    unfold Split
    rw [if_neg hc, ih hcs]

theorem Split_append (a b : GoString) (sep : Nat) (ha : sep ∉ a) :
    Split (a ++ sep :: b) sep = a :: Split b sep := by
  induction a with
  | nil => simp [Split]
  | cons c cs ih =>
    have hc : c ≠ sep := fun e => ha (by simp [e])
    have hcs : sep ∉ cs := fun e => ha (by simp [e])
    rw [List.cons_append, Split, if_neg hc, ih hcs]

end strings

namespace strconv

theorem digitsValue_ge (cs : GoString) : ∀ acc v, digitsValue cs acc = some v → acc ≤ v := by
  induction cs with
  | nil => intro acc v h; simp [digitsValue] at h; omega
  | cons c cs ih =>
    intro acc v h
    unfold digitsValue at h
    split at h
    · have := ih _ _ h; omega
    · simp at h

end strconv

theorem digitsValue_digits (cs : GoString) : ∀ acc v, digitsValue cs acc = some v →
    ∀ c ∈ cs, 48 ≤ c ∧ c ≤ 57 := by
  induction cs with
  | nil => intro acc v _ c hc; simp at hc
  | cons x xs ih =>
    intro acc v h c hc
    unfold digitsValue at h
    split at h
    · next hx =>
      rcases List.mem_cons.1 hc with rfl | hc
      · exact hx
      · exact ih _ _ h c hc
    · simp at h

theorem decimalInteger_no_comma (a : GoString) (n : Int) (h : decimalInteger a = some n) :
    44 ∉ a := by
  cases a with
  | nil => simp
  | cons c cs =>
    unfold decimalInteger at h
    simp only at h
    intro hmem
    split at h
    · next h45 =>
      split at h
      · simp at h
      · obtain ⟨v, hv, -⟩ := Option.map_eq_some'.1 h
        rcases List.mem_cons.1 hmem with e | hm
        · omega
        · have := digitsValue_digits cs 0 v hv 44 hm; omega
    · split at h
      · next h43 =>
        split at h
        · simp at h
        · obtain ⟨v, hv, -⟩ := Option.map_eq_some'.1 h
          rcases List.mem_cons.1 hmem with e | hm
          · omega
          · have := digitsValue_digits cs 0 v hv 44 hm; omega
      · obtain ⟨v, hv, -⟩ := Option.map_eq_some'.1 h
        have := digitsValue_digits (c :: cs) 0 v hv 44 hmem
        omega

namespace strconv

theorem parseUintLoop_ok (cs : GoString) : ∀ n v, n < 2 ^ 64 →
    (parseUintLoop cs n = (v, none) ↔ digitsValue cs n = some v ∧ v < 2 ^ 64) := by
  induction cs with
  | nil =>
    intro n v hn
    simp only [parseUintLoop, digitsValue, Prod.mk.injEq, and_true, Option.some.injEq]
    constructor
    · rintro rfl; exact ⟨rfl, hn⟩
    · rintro ⟨h, -⟩; exact h
  | cons c cs ih =>
    intro n v hn
    unfold parseUintLoop digitsValue
    by_cases hd : 48 ≤ c ∧ c ≤ 57
    · simp only [hd, not_true_eq_false, if_false, and_self, if_true]
      by_cases hc : 2 ^ 64 / 10 + 1 ≤ n
      · simp only [hc, if_true, Prod.mk.injEq, reduceCtorEq, and_false, false_iff, not_and]
        intro h
        have := digitsValue_ge _ _ _ h
        omega
      · simp only [hc, if_false]
        by_cases hw : (n * 10 + (c - 48)) % 2 ^ 64 < n * 10
        · simp only [hw, if_true, Prod.mk.injEq, reduceCtorEq, and_false, false_iff, not_and]
          intro h
          have := digitsValue_ge _ _ _ h
          omega
        · simp only [hw, if_false]
          have e : (n * 10 + (c - 48)) % 2 ^ 64 = n * 10 + (c - 48) := by omega
          rw [e]
          exact ih _ v (by omega)
    · simp [hd]

theorem parseUintLoop_err_value (cs : GoString) : ∀ n,
    (parseUintLoop cs n).2 = some .outOfRange → (parseUintLoop cs n).1 = 2 ^ 64 - 1 := by
  induction cs with
  | nil => intro n h; simp [parseUintLoop] at h
  | cons c cs ih =>
    intro n h
    unfold parseUintLoop at h ⊢
    split
    · next hd => rw [if_pos hd] at h; simp at h
    · next hd =>
      rw [if_neg hd] at h
      split
      · rfl
      · next hc =>
        rw [if_neg hc] at h
        simp only at h ⊢
        split
        · rfl
        · next hw =>
          rw [if_neg hw] at h
          exact ih _ h

theorem parseUintLoop_lt (cs : GoString) : ∀ n, n < 2 ^ 64 → (parseUintLoop cs n).1 < 2 ^ 64 := by
  induction cs with
  | nil => intro n hn; simpa [parseUintLoop] using hn
  | cons c cs ih =>
    intro n hn
    unfold parseUintLoop
    split
    · norm_num
    · split
      · norm_num
      · simp only
        split
        · norm_num
        · exact ih _ (Nat.mod_lt _ (by norm_num))

/-- The part of `ParseInt` after the sign has been stripped, as a function of the sign and
of the result of `ParseUint`. -/
theorem parseInt_tail (neg : Bool) (s1 : GoString) (hs : s1 ≠ []) (n : Int) :
    ((if (ParseUint s1).2 = some .badSyntax then ((0 : Int), (ParseUint s1).2)
      else if neg = false ∧ 2 ^ 63 ≤ (ParseUint s1).1 then
        ((((2 ^ 63 : Nat) : Int)) - 1, some NumError.outOfRange)
      else if neg = true ∧ 2 ^ 63 < (ParseUint s1).1 then
        (-(((2 ^ 63 : Nat) : Int)), some NumError.outOfRange)
      else (if neg then -((ParseUint s1).1 : Int) else ((ParseUint s1).1 : Int), none))
        = (n, none)) ↔
    ∃ v, digitsValue s1 0 = some v ∧ n = (if neg then -(v : Int) else (v : Int)) ∧
      -2 ^ 63 ≤ n ∧ n < 2 ^ 63 := by
  have hP : ParseUint s1 = parseUintLoop s1 0 := by
    cases s1 with
    | nil => exact absurd rfl hs
    | cons c cs => rfl
  rw [hP]
  have hspec := parseUintLoop_ok s1 0
  have herr := parseUintLoop_err_value s1 0
  generalize parseUintLoop s1 0 = r at hspec herr
  obtain ⟨un, err⟩ := r
  simp only at herr ⊢
  cases err with
  | some e =>
    have hno : ¬ ∃ v, digitsValue s1 0 = some v ∧ n = (if neg then -(v : Int) else (v : Int)) ∧
        -2 ^ 63 ≤ n ∧ n < 2 ^ 63 := by
      rintro ⟨v, hv, rfl, h1, h2⟩
      have hlt : v < 2 ^ 64 := by
        cases neg
        · simp only [Bool.false_eq_true, if_false] at h1 h2; omega
        · simp only [if_true] at h1 h2; omega
      have := (hspec v (by norm_num)).2 ⟨hv, hlt⟩
      simp at this
    refine ⟨fun h => ?_, fun h => absurd h hno⟩
    exfalso
    cases e with
    | badSyntax => simp at h
    | outOfRange =>
      have hu := herr rfl
      subst hu
      cases neg
      · simp at h
      · simp at h
  | none =>
    have hv := (hspec un (by norm_num)).1 rfl
    cases neg
    · simp only [reduceCtorEq, if_false, true_and, Bool.false_eq_true, false_and]
      constructor
      · intro h
        split at h
        · simp at h
        · next hlt =>
          simp only [Prod.mk.injEq, and_true] at h
          exact ⟨un, hv.1, h.symm, by omega, by omega⟩
      · rintro ⟨v, hv', rfl, h1, h2⟩
        have : v = un := by rw [hv.1] at hv'; simpa using hv'.symm
        subst this
        rw [if_neg (by omega)]
    · simp only [reduceCtorEq, if_false, true_and, Bool.true_eq_false, false_and, if_true]
      constructor
      · intro h
        split at h
        · simp at h
        · next hlt =>
          simp only [Prod.mk.injEq, and_true] at h
          exact ⟨un, hv.1, h.symm, by omega, by omega⟩
      · rintro ⟨v, hv', rfl, h1, h2⟩
        have : v = un := by rw [hv.1] at hv'; simpa using hv'.symm
        subst this
        rw [if_neg (by omega)]

/-- Refinement of `Atoi`: it succeeds exactly on the decimal literals whose value fits the
64-bit `int`, and returns that value. -/
theorem Atoi_ok_iff (s : GoString) (n : Int) :
    Atoi s = (n, none) ↔ decimalInteger s = some n ∧ -2 ^ 63 ≤ n ∧ n < 2 ^ 63 := by
  cases s with
  | nil => simp [Atoi, ParseInt, decimalInteger]
  | cons c cs =>
    unfold Atoi ParseInt decimalInteger
    simp only
    by_cases h45 : c = 45
    · rw [if_pos (Or.inr h45), if_pos h45]
      by_cases hcs : cs = []
      · subst hcs; simp [ParseUint]
      · rw [parseInt_tail _ cs hcs n, if_neg hcs]
        simp only [h45, decide_True, if_true, Option.map_eq_some']
        constructor
        · rintro ⟨v, hv, rfl, h⟩; exact ⟨⟨v, hv, rfl⟩, h⟩
        · rintro ⟨⟨v, hv, rfl⟩, h⟩; exact ⟨v, hv, rfl, h⟩
    · by_cases h43 : c = 43
      · rw [if_pos (Or.inl h43), if_neg h45, if_pos h43]
        by_cases hcs : cs = []
        · subst hcs; simp [ParseUint]
        · rw [parseInt_tail _ cs hcs n, if_neg hcs]
          simp only [h45, decide_False, Bool.false_eq_true, if_false, Option.map_eq_some']
          constructor
          · rintro ⟨v, hv, rfl, h⟩; exact ⟨⟨v, hv, rfl⟩, h⟩
          · rintro ⟨⟨v, hv, rfl⟩, h⟩; exact ⟨v, hv, rfl, h⟩
      · have hor : ¬ (c = 43 ∨ c = 45) := by simp [h43, h45]
        rw [if_neg hor, if_neg h45, if_neg h43, parseInt_tail _ (c :: cs) (by simp) n]
        simp only [h45, decide_False, Bool.false_eq_true, if_false, Option.map_eq_some']
        constructor
        · rintro ⟨v, hv, rfl, h⟩; exact ⟨⟨v, hv, rfl⟩, h⟩
        · rintro ⟨⟨v, hv, rfl⟩, h⟩; exact ⟨v, hv, rfl, h⟩

end strconv

/-- The model of `strconv.Atoi` on reference inputs. -/
theorem Atoi_reference_values :
    strconv.Atoi (utf8 "1000") = (1000, none) ∧
    strconv.Atoi (utf8 "+12") = (12, none) ∧
    strconv.Atoi (utf8 "-007") = (-7, none) ∧
    strconv.Atoi (utf8 "-9223372036854775808") = (-2 ^ 63, none) ∧
    strconv.Atoi (utf8 "9223372036854775808") = (2 ^ 63 - 1, some .outOfRange) ∧
    strconv.Atoi (utf8 "") = (0, some .badSyntax) ∧
    strconv.Atoi (utf8 "1_000") = (0, some .badSyntax) ∧
    strconv.Atoi (utf8 "12a") = (0, some .badSyntax) ∧
    strconv.Atoi (utf8 " 5") = (0, some .badSyntax) := by
  decide

/-- Success of the count validation in terms of the decimal literal. -/
theorem count_ok_iff (a : GoString) :
    ((strconv.Atoi a).2 ≠ none ∨ (strconv.Atoi a).1 ≤ 0) ↔
      (decimalInteger a = none ∨ ∃ n, decimalInteger a = some n ∧ (n ≤ 0 ∨ 2 ^ 63 ≤ n)) := by
  constructor
  · intro h
    by_contra hc
    push_neg at hc
    obtain ⟨hne, hall⟩ := hc
    obtain ⟨n, hn⟩ := Option.ne_none_iff_exists'.1 hne
    obtain ⟨h1, h2⟩ := hall n hn
    have hA := (strconv.Atoi_ok_iff a n).2 ⟨hn, by omega, by omega⟩
    rw [hA] at h
    simp at h
    omega
  · intro h
    by_contra hc
    push_neg at hc
    obtain ⟨hnone, hpos⟩ := hc
    have hA : strconv.Atoi a = ((strconv.Atoi a).1, none) := by
      rw [← hnone]
    obtain ⟨hd, h1, h2⟩ := (strconv.Atoi_ok_iff a _).1 hA
    rcases h with h | ⟨n, hn, h⟩
    · rw [h] at hd; simp at hd
    · rw [hn] at hd
      simp only [Option.some.injEq] at hd
      omega

/-! ### Duration parsing -/

namespace time

theorem leadingInt_suffix (s : GoString) : ∀ x v r, leadingInt s x = some (v, r) →
    ∃ p, s = p ++ r ∧ ∀ c ∈ p, 48 ≤ c ∧ c ≤ 57 := by
  induction s with
  | nil =>
    intro x v r h
    simp only [leadingInt, Option.some.injEq, Prod.mk.injEq] at h
    exact ⟨[], by simp [h.2], by simp⟩
  | cons c cs ih =>
    intro x v r h
    unfold leadingInt at h
    split at h
    · simp only [Option.some.injEq, Prod.mk.injEq] at h
      exact ⟨[], by simp [h.2], by simp⟩
    · next hd =>
      split at h
      · simp at h
      · simp only at h
        split at h
        · simp at h
        · obtain ⟨p, hp, hall⟩ := ih _ _ _ h
          refine ⟨c :: p, by simp [hp], ?_⟩
          intro y hy
          rcases List.mem_cons.1 hy with rfl | hy
          · omega
          · exact hall y hy

theorem leadingFraction_suffix (s : GoString) : ∀ x sc o,
    ∃ p, s = p ++ (leadingFraction s x sc o).2.2 ∧ ∀ c ∈ p, 48 ≤ c ∧ c ≤ 57 := by
  induction s with
  | nil => intro x sc o; exact ⟨[], by simp [leadingFraction], by simp⟩
  | cons c cs ih =>
    intro x sc o
    have step : ∀ x' sc' o', ∀ hd : ¬ (c < 48 ∨ 57 < c),
        ∃ p, c :: cs = p ++ (leadingFraction cs x' sc' o').2.2 ∧ ∀ y ∈ p, 48 ≤ y ∧ y ≤ 57 := by
      intro x' sc' o' hd
      obtain ⟨p, hp, hall⟩ := ih x' sc' o'
      refine ⟨c :: p, by rw [List.cons_append, ← hp], ?_⟩
      intro y hy
      rcases List.mem_cons.1 hy with rfl | hy
      · omega
      · exact hall y hy
    unfold leadingFraction
    split
    · exact ⟨[], by simp, by simp⟩
    · next hd =>
      split
      · exact step _ _ _ hd
      · split
        · exact step _ _ _ hd
        · simp only
          split
          · exact step _ _ _ hd
          · exact step _ _ _ hd

theorem unitMap_no_comma (u : GoString) (n : Nat) (h : unitMap u = some n) : 44 ∉ u := by
  unfold unitMap at h
  repeat' split at h
  all_goals first
    | (simp at h; done)
    | (next hu => subst hu; decide)

theorem fraction_suffix (s1 : GoString) :
    ∃ p, s1 = p ++ (fraction s1).2.2.1 ∧ 44 ∉ p := by
  unfold fraction
  split
  · next t =>
    obtain ⟨p, hp, hall⟩ := leadingFraction_suffix t 0 (F64.ofInt 1) false
    refine ⟨46 :: p, by simp only [List.cons_append]; rw [← hp], ?_⟩
    intro hm
    rcases List.mem_cons.1 hm with e | hm
    · omega
    · have := hall 44 hm; omega
  · exact ⟨[], by simp, by simp⟩

/-- A successfully read term is a non-empty prefix of the input without a comma. -/
theorem term_suffix (s : GoString) (v : Nat) (rest : GoString) (h : term s = .ok (v, rest)) :
    ∃ p, s = p ++ rest ∧ p ≠ [] ∧ 44 ∉ p := by
  unfold term at h
  split at h
  · simp at h
  · next c cs =>
    split at h
    · simp at h
    · split at h
      · simp at h
      · next v0 s1 hL =>
        simp only at h
        split at h
        · simp at h
        · split at h
          · simp at h
          · next hu =>
            split at h
            · simp at h
            · next unit hunit =>
              have hrest : rest = List.dropWhile (fun b => !endsUnit b) (fraction s1).2.2.1 := by
                split_ifs at h <;> simp at h <;> exact h.2.symm
              obtain ⟨p1, hp1, hall1⟩ := leadingInt_suffix _ _ _ _ hL
              obtain ⟨p2, hp2, hall2⟩ := fraction_suffix s1
              have hsplit := List.takeWhile_append_dropWhile (fun b => !endsUnit b)
                (fraction s1).2.2.1
              have hno := unitMap_no_comma _ _ hunit
              refine ⟨p1 ++ p2 ++ List.takeWhile (fun b => !endsUnit b) (fraction s1).2.2.1,
                ?_, ?_, ?_⟩
              · rw [hrest, List.append_assoc, List.append_assoc, hsplit, ← hp2, ← hp1]
              · intro he
                simp only [List.append_eq_nil] at he
                exact hu he.2
              · intro hm
                simp only [List.mem_append] at hm
                rcases hm with (hm | hm) | hm
                · have := hall1 44 hm; omega
                · exact hall2 hm
                · exact hno hm

theorem parseLoop_no_comma (fuel : Nat) : ∀ (s : GoString) (d d' : Nat),
    parseLoop fuel s d = .ok d' → 44 ∉ s := by
  induction fuel with
  | zero =>
    intro s d d' h
    cases s with
    | nil => simp
    | cons c cs => simp [parseLoop] at h
  | succ fuel ih =>
    intro s d d' h
    cases s with
    | nil => simp
    | cons c cs =>
      unfold parseLoop at h
      split at h
      · simp at h
      · next v rest ht =>
        simp only at h
        split at h
        · simp at h
        · obtain ⟨p, hp, -, hno⟩ := term_suffix _ _ _ ht
          have := ih _ _ _ h
          rw [hp]
          simp only [List.mem_append, not_or]
          exact ⟨hno, this⟩

/-- The fuel given by `ParseDuration` is never exhausted: more fuel changes nothing. -/
theorem parseLoop_fuel (fuel : Nat) : ∀ (s : GoString) (d : Nat), s.length ≤ fuel →
    parseLoop fuel s d = parseLoop s.length s d := by
  induction fuel using Nat.strong_induction_on with
  | _ fuel ih =>
    intro s d hlen
    cases s with
    | nil => cases fuel <;> rfl
    | cons c cs =>
      cases fuel with
      | zero => simp at hlen
      | succ fuel =>
        simp only [List.length_cons]
        unfold parseLoop
        cases ht : term (c :: cs) with
        | error e => rfl
        | ok r =>
          obtain ⟨v, rest⟩ := r
          simp only
          split
          · rfl
          · obtain ⟨p, hp, hne, -⟩ := term_suffix _ _ _ ht
            have hl : rest.length ≤ cs.length := by
              have := congrArg List.length hp
              simp only [List.length_cons, List.length_append] at this
              have : 0 < p.length := List.length_pos.2 hne
              omega
            have hlen' : cs.length ≤ fuel := by simpa using hlen
            rw [ih fuel (by omega) rest _ (by omega),
              ih cs.length (by omega) rest _ hl]

theorem ParseDuration_ok (s1 : GoString) (neg : Bool) (v : Duration)
    (h : (if s1 = [48] then ((0 : Duration), (none : Option DurationError))
      else if s1 = [] then (0, some .invalid)
      else
        match parseLoop s1.length s1 0 with
        | .error e => (0, some e)
        | .ok d =>
          if neg then (wrapInt64 (-(wrapInt64 (d : Int))), none)
          else if 2 ^ 63 - 1 < d then (0, some .invalid)
          else ((d : Int), none)) = (v, none)) : 44 ∉ s1 := by
  split at h
  · next h0 => rw [h0]; decide
  · split at h
    · simp at h
    · split at h
      · simp at h
      · next d hd => exact parseLoop_no_comma _ _ _ _ hd

theorem ParseDuration_no_comma (b : GoString) (v : Duration)
    (h : ParseDuration b = (v, none)) : 44 ∉ b := by
  unfold ParseDuration at h
  cases b with
  | nil => simp
  | cons c cs =>
    simp only at h
    by_cases hc : c = 45 ∨ c = 43
    · rw [if_pos hc] at h
      have := ParseDuration_ok _ _ _ h
      intro hm
      rcases List.mem_cons.1 hm with e | hm
      · omega
      · exact this hm
    · rw [if_neg hc] at h
      exact ParseDuration_ok _ _ _ h

/-- The model of `time.ParseDuration` on entries of the table of the Go test-suite. -/
theorem ParseDuration_reference_values :
    ParseDuration (utf8 "0") = (0, none) ∧
    ParseDuration (utf8 "1h30m") = (5400 * Second, none) ∧
    ParseDuration (utf8 "-2m3.4s") = (-(2 * Minute + 3 * Second + 400 * Millisecond), none) ∧
    ParseDuration (utf8 "12µs") = (12 * Microsecond, none) ∧
    ParseDuration (utf8 ".5s") = (500 * Millisecond, none) ∧
    ParseDuration (utf8 "0.830103483285477580700h") =
      (49 * Minute + 48 * Second + 372539827 * Nanosecond, none) ∧
    ParseDuration (utf8 "9223372036854775807ns") = (2 ^ 63 - 1, none) ∧
    ParseDuration (utf8 "-9223372036854775808ns") = (-2 ^ 63, none) ∧
    ParseDuration (utf8 "9223372036854775808ns") = (0, some .invalid) ∧
    ParseDuration (utf8 "3000000h") = (0, some .invalid) ∧
    ParseDuration (utf8 "") = (0, some .invalid) ∧
    ParseDuration (utf8 "3") = (0, some .missingUnit) ∧
    ParseDuration (utf8 "1d") = (0, some (.unknownUnit (utf8 "d"))) ∧
    ParseDuration (utf8 ".s") = (0, some .invalid) := by
  decide

end time

/-! ### The record parsers -/

namespace daysteps

/-- Outcome of `Parse` on a two-field line, by the validation that decides it. -/
theorem Parse_two_fields (ds : DaySteps) (line a b : GoString)
    (h : strings.Split line 44 = [a, b]) :
    (((strconv.Atoi a).2 ≠ none ∨ (strconv.Atoi a).1 ≤ 0) →
      ∃ d, ds.Parse line = (ds, some (.wrapf .daystepsInvalidCount d))) ∧
    (¬ ((strconv.Atoi a).2 ≠ none ∨ (strconv.Atoi a).1 ≤ 0) →
      ((time.ParseDuration b).2 ≠ none ∨ (time.ParseDuration b).1 ≤ 0) →
      ∃ d, ds.Parse line = (ds, some (.wrapf .daystepsInvalidDuration d))) ∧
    (¬ ((strconv.Atoi a).2 ≠ none ∨ (strconv.Atoi a).1 ≤ 0) →
      ¬ ((time.ParseDuration b).2 ≠ none ∨ (time.ParseDuration b).1 ≤ 0) →
      ds.Parse line = ({ ds with Steps := (strconv.Atoi a).1,
                                 Duration := (time.ParseDuration b).1 }, none)) := by
  unfold DaySteps.Parse
  simp only [h, time.Duration.Seconds_le_zero]
  rcases hA : strconv.Atoi a with ⟨n, _ | ea⟩
  · rcases hD : time.ParseDuration b with ⟨v, _ | ed⟩
    · by_cases hn : n ≤ 0
      · simp [hn]
      · by_cases hv : v ≤ 0
        · simp [hn, hv]
        · simp [hn, hv]
    · by_cases hn : n ≤ 0
      · simp [hn]
      · simp [hn]
  · simp

/-- On any other field count `Parse` reports the format error and keeps the record. -/
theorem DaySteps_Parse_bad_format (ds : DaySteps) (line : GoString)
    (h : (strings.Split line 44).length ≠ 2) :
    ds.Parse line = (ds, some (.wrapf .daystepsInvalidFormat
      (.parts (strings.Split line 44).length))) := by
  unfold DaySteps.Parse
  rcases hs : strings.Split line 44 with _ | ⟨a, _ | ⟨b, _ | ⟨c, r⟩⟩⟩
  · rfl
  · rfl
  · rw [hs] at h; simp at h
  · rfl

theorem DaySteps_Parse_count_iff (ds : DaySteps) (line a b : GoString)
    (h : strings.Split line 44 = [a, b]) :
    failsWith (ds.Parse line).2 ErrInvalidCount = true ↔
      ((strconv.Atoi a).2 ≠ none ∨ (strconv.Atoi a).1 ≤ 0) := by
  obtain ⟨h1, h2, h3⟩ := Parse_two_fields ds line a b h
  constructor
  · intro hf
    by_contra hA
    by_cases hD : (time.ParseDuration b).2 ≠ none ∨ (time.ParseDuration b).1 ≤ 0
    · obtain ⟨d, hd⟩ := h2 hA hD
      rw [hd] at hf
      revert hf; simp [failsWith, GoError.Is, ErrInvalidCount]
    · rw [h3 hA hD] at hf
      simp [failsWith] at hf
  · intro hA
    obtain ⟨d, hd⟩ := h1 hA
    rw [hd]
    simp [failsWith, GoError.Is, ErrInvalidCount]

theorem DaySteps_Parse_duration_iff (ds : DaySteps) (line a b : GoString)
    (h : strings.Split line 44 = [a, b])
    (hA : ¬ ((strconv.Atoi a).2 ≠ none ∨ (strconv.Atoi a).1 ≤ 0)) :
    failsWith (ds.Parse line).2 ErrInvalidDuration = true ↔
      ((time.ParseDuration b).2 ≠ none ∨ (time.ParseDuration b).1 ≤ 0) := by
  obtain ⟨h1, h2, h3⟩ := Parse_two_fields ds line a b h
  constructor
  · intro hf
    by_contra hD
    rw [h3 hA hD] at hf
    simp [failsWith] at hf
  · intro hD
    obtain ⟨d, hd⟩ := h2 hA hD
    rw [hd]
    simp [failsWith, GoError.Is, ErrInvalidDuration]

/-- A call of `Parse` that returns no error leaves positive `Steps` and `Duration`. -/
theorem Parse_ok_positive (ds : DaySteps) (line : GoString) (h : (ds.Parse line).2 = none) :
    0 < (ds.Parse line).1.Steps ∧ 0 < (ds.Parse line).1.Duration := by
  by_cases hlen : (strings.Split line 44).length ≠ 2
  · rw [DaySteps_Parse_bad_format ds line hlen] at h; simp at h
  · obtain ⟨a, b, hab⟩ : ∃ a b, strings.Split line 44 = [a, b] := by
      rcases hs : strings.Split line 44 with _ | ⟨a, _ | ⟨b, _ | ⟨c, r⟩⟩⟩
      · rw [hs] at hlen; simp at hlen
      · rw [hs] at hlen; simp at hlen
      · exact ⟨a, b, rfl⟩
      · rw [hs] at hlen; simp at hlen
    obtain ⟨h1, h2, h3⟩ := Parse_two_fields ds line a b hab
    by_cases hA : (strconv.Atoi a).2 ≠ none ∨ (strconv.Atoi a).1 ≤ 0
    · obtain ⟨d, hd⟩ := h1 hA
      rw [hd] at h; simp at h
    · by_cases hD : (time.ParseDuration b).2 ≠ none ∨ (time.ParseDuration b).1 ≤ 0
      · obtain ⟨d, hd⟩ := h2 hA hD
        rw [hd] at h; simp at h
      · rw [h3 hA hD]
        push_neg at hA hD
        exact ⟨hA.2, hD.2⟩

end daysteps

namespace trainings

/-- Outcome of `Parse` on a three-field line, by the validation that decides it. -/
theorem Parse_three_fields (t : Training) (line a k b : GoString)
    (h : strings.Split line 44 = [a, k, b]) :
    (((strconv.Atoi a).2 ≠ none ∨ (strconv.Atoi a).1 ≤ 0) →
      ∃ d, t.Parse line = (t, some (.wrapf .trainingsInvalidCount d))) ∧
    (¬ ((strconv.Atoi a).2 ≠ none ∨ (strconv.Atoi a).1 ≤ 0) →
      ((time.ParseDuration b).2 ≠ none ∨ (time.ParseDuration b).1 ≤ 0) →
      ∃ d, t.Parse line = (t, some (.wrapf .trainingsInvalidDuration d))) ∧
    (¬ ((strconv.Atoi a).2 ≠ none ∨ (strconv.Atoi a).1 ≤ 0) →
      ¬ ((time.ParseDuration b).2 ≠ none ∨ (time.ParseDuration b).1 ≤ 0) →
      t.Parse line = ({ t with Duration := (time.ParseDuration b).1, TrainingType := k,
                               Steps := (strconv.Atoi a).1 }, none)) := by
  unfold Training.Parse
  simp only [h, time.Duration.Seconds_le_zero]
  rcases hA : strconv.Atoi a with ⟨n, _ | ea⟩
  · rcases hD : time.ParseDuration b with ⟨v, _ | ed⟩
    · by_cases hn : n ≤ 0
      · simp [hn]
      · by_cases hv : v ≤ 0
        · simp [hn, hv]
        · simp [hn, hv]
    · by_cases hn : n ≤ 0
      · simp [hn]
      · simp [hn]
  · simp

/-- On any other field count `Parse` reports the format error and keeps the record. -/
theorem Training_Parse_bad_format (t : Training) (line : GoString)
    (h : (strings.Split line 44).length ≠ 3) :
    t.Parse line = (t, some (.wrapf .trainingsInvalidFormat
      (.parts (strings.Split line 44).length))) := by
  unfold Training.Parse
  rcases hs : strings.Split line 44 with _ | ⟨a, _ | ⟨k, _ | ⟨b, _ | ⟨c, r⟩⟩⟩⟩
  · rfl
  · rfl
  · rfl
  · rw [hs] at h; simp at h
  · rfl

theorem Training_Parse_count_iff (t : Training) (line a k b : GoString)
    (h : strings.Split line 44 = [a, k, b]) :
    failsWith (t.Parse line).2 ErrInvalidCount = true ↔
      ((strconv.Atoi a).2 ≠ none ∨ (strconv.Atoi a).1 ≤ 0) := by
  obtain ⟨h1, h2, h3⟩ := Parse_three_fields t line a k b h
  constructor
  · intro hf
    by_contra hA
    by_cases hD : (time.ParseDuration b).2 ≠ none ∨ (time.ParseDuration b).1 ≤ 0
    · obtain ⟨d, hd⟩ := h2 hA hD
      rw [hd] at hf
      revert hf; simp [failsWith, GoError.Is, ErrInvalidCount]
    · rw [h3 hA hD] at hf
      simp [failsWith] at hf
  · intro hA
    obtain ⟨d, hd⟩ := h1 hA
    rw [hd]
    simp [failsWith, GoError.Is, ErrInvalidCount]

theorem Training_Parse_duration_iff (t : Training) (line a k b : GoString)
    (h : strings.Split line 44 = [a, k, b])
    (hA : ¬ ((strconv.Atoi a).2 ≠ none ∨ (strconv.Atoi a).1 ≤ 0)) :
    failsWith (t.Parse line).2 ErrInvalidDuration = true ↔
      ((time.ParseDuration b).2 ≠ none ∨ (time.ParseDuration b).1 ≤ 0) := by
  obtain ⟨h1, h2, h3⟩ := Parse_three_fields t line a k b h
  constructor
  · intro hf
    by_contra hD
    rw [h3 hA hD] at hf
    simp [failsWith] at hf
  · intro hD
    obtain ⟨d, hd⟩ := h2 hA hD
    rw [hd]
    simp [failsWith, GoError.Is, ErrInvalidDuration]

end trainings

namespace daysteps

/-- C6: `DaySteps.Parse` fails with an error wrapping `ErrInvalidFormat` exactly when
splitting the line on `,` does not give 2 fields, that is when the line does not contain
exactly one comma; the check precedes every other validation, so the empty line and
`abc` give the format error and not the count error. -/
theorem C6_daysteps_invalid_format_iff (ds : DaySteps) (line : GoString) :
    (failsWith (ds.Parse line).2 ErrInvalidFormat = true ↔
      (strings.Split line 44).length ≠ 2) ∧
    ((strings.Split line 44).length ≠ 2 ↔ line.count 44 ≠ 1) ∧
    (failsWith (ds.Parse line).2 ErrInvalidFormat = true →
      failsWith (ds.Parse line).2 ErrInvalidCount = false ∧
      failsWith (ds.Parse line).2 ErrInvalidDuration = false) ∧
    (failsWith (ds.Parse (utf8 "")).2 ErrInvalidFormat = true ∧
      failsWith (ds.Parse (utf8 "")).2 ErrInvalidCount = false) ∧
    (failsWith (ds.Parse (utf8 "abc")).2 ErrInvalidFormat = true ∧
      failsWith (ds.Parse (utf8 "abc")).2 ErrInvalidCount = false) := by
  have hbad : ∀ l : GoString, (strings.Split l 44).length ≠ 2 →
      failsWith (ds.Parse l).2 ErrInvalidFormat = true ∧
      failsWith (ds.Parse l).2 ErrInvalidCount = false ∧
      failsWith (ds.Parse l).2 ErrInvalidDuration = false := by
    intro l h
    rw [DaySteps_Parse_bad_format ds l h]
    simp [failsWith, GoError.Is, ErrInvalidFormat, ErrInvalidCount, ErrInvalidDuration]
  have hiff : failsWith (ds.Parse line).2 ErrInvalidFormat = true ↔
      (strings.Split line 44).length ≠ 2 := by
    constructor
    · intro hf hlen
      obtain ⟨a, b, hab⟩ : ∃ a b, strings.Split line 44 = [a, b] := by
        rcases hs : strings.Split line 44 with _ | ⟨a, _ | ⟨b, _ | ⟨c, r⟩⟩⟩
        · rw [hs] at hlen; simp at hlen
        · rw [hs] at hlen; simp at hlen
        · exact ⟨a, b, rfl⟩
        · rw [hs] at hlen; simp at hlen
      obtain ⟨h1, h2, h3⟩ := Parse_two_fields ds line a b hab
      by_cases hA : (strconv.Atoi a).2 ≠ none ∨ (strconv.Atoi a).1 ≤ 0
      · obtain ⟨d, hd⟩ := h1 hA
        rw [hd] at hf
        revert hf; simp [failsWith, GoError.Is, ErrInvalidFormat]
      · by_cases hD : (time.ParseDuration b).2 ≠ none ∨ (time.ParseDuration b).1 ≤ 0
        · obtain ⟨d, hd⟩ := h2 hA hD
          rw [hd] at hf
          revert hf; simp [failsWith, GoError.Is, ErrInvalidFormat]
        · rw [h3 hA hD] at hf
          simp [failsWith] at hf
    · intro h
      exact (hbad line h).1
  refine ⟨hiff, ?_, ?_, ?_, ?_⟩
  · rw [strings.Split_length]; omega
  · intro hf
    exact (hbad line (hiff.1 hf)).2
  · exact ⟨(hbad (utf8 "") (by decide)).1, (hbad (utf8 "") (by decide)).2.1⟩
  · exact ⟨(hbad (utf8 "abc") (by decide)).1, (hbad (utf8 "abc") (by decide)).2.1⟩

end daysteps

/-- C7 (amended): on a line with the right field count, `Parse` (both variants) fails with
an error wrapping `ErrInvalidCount` exactly when the steps field is not a decimal integer,
or its value is `<= 0`, or its value exceeds the largest `int` (`2^63 - 1`), whatever
the other fields contain. -/
theorem C7_invalid_count_iff (ds : daysteps.DaySteps) (t : trainings.Training)
    (lineD lineT a k b : GoString)
    (hD : strings.Split lineD 44 = [a, b]) (hT : strings.Split lineT 44 = [a, k, b]) :
    (failsWith (ds.Parse lineD).2 daysteps.ErrInvalidCount = true ↔
      (decimalInteger a = none ∨ ∃ n, decimalInteger a = some n ∧ (n ≤ 0 ∨ 2 ^ 63 ≤ n))) ∧
    (failsWith (t.Parse lineT).2 trainings.ErrInvalidCount = true ↔
      (decimalInteger a = none ∨ ∃ n, decimalInteger a = some n ∧ (n ≤ 0 ∨ 2 ^ 63 ≤ n))) :=
  ⟨(daysteps.DaySteps_Parse_count_iff ds lineD a b hD).trans (count_ok_iff a),
   (trainings.Training_Parse_count_iff t lineT a k b hT).trans (count_ok_iff a)⟩

/-- C7 (amended) at concrete inputs: the lines `0,1h` and `0,Бег,1h` fail with the count
error. -/
theorem C7_invalid_count_iff_witness :
    failsWith (daysteps.zeroDaySteps.Parse (utf8 "0,1h")).2 daysteps.ErrInvalidCount = true ∧
    failsWith (trainings.zeroTraining.Parse (utf8 "0,Бег,1h")).2 trainings.ErrInvalidCount = true :=
  have h := C7_invalid_count_iff daysteps.zeroDaySteps trainings.zeroTraining (utf8 "0,1h")
    (utf8 "0,Бег,1h") (utf8 "0") (utf8 "Бег") (utf8 "1h") (by decide) (by decide)
  ⟨h.1.2 (Or.inr ⟨0, by decide, Or.inl (by decide)⟩),
   h.2.2 (Or.inr ⟨0, by decide, Or.inl (by decide)⟩)⟩

/-- C7 (as stated) fails: in `9223372036854775808,1h` the steps field is a decimal
integer with a positive value, and `Parse` still fails with `ErrInvalidCount`, because the
value does not fit the 64-bit `int`. -/
theorem C7_invalid_count_counterexample :
    strings.Split (utf8 "9223372036854775808,1h") 44 =
      [utf8 "9223372036854775808", utf8 "1h"] ∧
    decimalInteger (utf8 "9223372036854775808") = some 9223372036854775808 ∧
    failsWith (daysteps.zeroDaySteps.Parse (utf8 "9223372036854775808,1h")).2
      daysteps.ErrInvalidCount = true ∧
    ¬ (failsWith (daysteps.zeroDaySteps.Parse (utf8 "9223372036854775808,1h")).2
        daysteps.ErrInvalidCount = true ↔
      (decimalInteger (utf8 "9223372036854775808") = none ∨
        ∃ n, decimalInteger (utf8 "9223372036854775808") = some n ∧ n ≤ 0)) := by
  have h1 : decimalInteger (utf8 "9223372036854775808") = some 9223372036854775808 := by decide
  have h2 : failsWith (daysteps.zeroDaySteps.Parse (utf8 "9223372036854775808,1h")).2
      daysteps.ErrInvalidCount = true := by decide
  refine ⟨by decide, h1, h2, ?_⟩
  intro hiff
  rcases hiff.1 h2 with h | ⟨n, hn, hle⟩
  · rw [h1] at h; simp at h
  · rw [h1] at hn
    simp only [Option.some.injEq] at hn
    omega

/-- C8: on a line with the right field count and a steps field that `Atoi` accepts with a
positive value, `Parse` (both variants) fails with an error wrapping `ErrInvalidDuration`
exactly when `time.ParseDuration` rejects the duration field or the parsed duration is
`<= 0`. -/
theorem C8_invalid_duration_iff (ds : daysteps.DaySteps) (t : trainings.Training)
    (lineD lineT a k b : GoString) (n : Int)
    (hD : strings.Split lineD 44 = [a, b]) (hT : strings.Split lineT 44 = [a, k, b])
    (hA : strconv.Atoi a = (n, none)) (hn : 0 < n) :
    (failsWith (ds.Parse lineD).2 daysteps.ErrInvalidDuration = true ↔
      ((time.ParseDuration b).2 ≠ none ∨ (time.ParseDuration b).1 ≤ 0)) ∧
    (failsWith (t.Parse lineT).2 trainings.ErrInvalidDuration = true ↔
      ((time.ParseDuration b).2 ≠ none ∨ (time.ParseDuration b).1 ≤ 0)) := by
  have hok : ¬ ((strconv.Atoi a).2 ≠ none ∨ (strconv.Atoi a).1 ≤ 0) := by
    rw [hA]; simp; omega
  exact ⟨daysteps.DaySteps_Parse_duration_iff ds lineD a b hD hok,
    trainings.Training_Parse_duration_iff t lineT a k b hT hok⟩

/-- C8 at concrete inputs: the lines `1000,0h` and `1000,Бег,0h` fail with the duration
error. -/
theorem C8_invalid_duration_iff_witness :
    failsWith (daysteps.zeroDaySteps.Parse (utf8 "1000,0h")).2 daysteps.ErrInvalidDuration = true ∧
    failsWith (trainings.zeroTraining.Parse (utf8 "1000,Бег,0h")).2
      trainings.ErrInvalidDuration = true :=
  have h := C8_invalid_duration_iff daysteps.zeroDaySteps trainings.zeroTraining (utf8 "1000,0h")
    (utf8 "1000,Бег,0h") (utf8 "1000") (utf8 "Бег") (utf8 "0h") 1000
    (by decide) (by decide) (by decide) (by decide)
  ⟨h.1.2 (Or.inr (by decide)), h.2.2 (Or.inr (by decide))⟩

namespace daysteps

/-- C9 (amended): for every line `<n>,<d>` where `n` is a decimal integer with
`0 < n <= 2^63 - 1` (it fits the `int` type) and `d` is a duration expression that
`time.ParseDuration` reads as a positive duration, `DaySteps.Parse` returns no error and
leaves the record with `Steps = n` and `Duration` the value of `d`, the profile
unchanged; and every call that returns no error leaves `Steps > 0` and `Duration > 0`. -/
theorem C9_daysteps_parse_ok (ds : DaySteps) (a b : GoString) (n : Int) (v : time.Duration)
    (ha : decimalInteger a = some n) (hn : 0 < n) (hr : n < 2 ^ 63)
    (hb : time.ParseDuration b = (v, none)) (hv : 0 < v) :
    ds.Parse (a ++ 44 :: b) = ({ ds with Steps := n, Duration := v }, none) ∧
    (∀ (ds' : DaySteps) (line : GoString), (ds'.Parse line).2 = none →
      0 < (ds'.Parse line).1.Steps ∧ 0 < (ds'.Parse line).1.Duration) := by
  refine ⟨?_, Parse_ok_positive⟩
  have hsplit : strings.Split (a ++ 44 :: b) 44 = [a, b] := by
    rw [strings.Split_append a b 44 (decimalInteger_no_comma a n ha),
      strings.Split_no_sep b 44 (time.ParseDuration_no_comma b v hb)]
  have hA : strconv.Atoi a = (n, none) := (strconv.Atoi_ok_iff a n).2 ⟨ha, by omega, hr⟩
  obtain ⟨-, -, h3⟩ := Parse_two_fields ds _ a b hsplit
  have h := h3 (by rw [hA]; simp; omega) (by rw [hb]; simp; exact hv)
  rw [h, hA, hb]

/-- C9 (amended) at a concrete input: `1000,1h30m` gives `Steps = 1000` and a duration of
5400 s. -/
theorem C9_daysteps_parse_ok_witness :
    zeroDaySteps.Parse (utf8 "1000,1h30m") =
      ({ zeroDaySteps with Steps := 1000, Duration := 5400 * time.Second }, none) := by
  have h := (C9_daysteps_parse_ok zeroDaySteps (utf8 "1000") (utf8 "1h30m") 1000
    (5400 * time.Second) (by decide) (by decide) (by decide) (by decide) (by decide)).1
  have e : utf8 "1000" ++ 44 :: utf8 "1h30m" = utf8 "1000,1h30m" := by decide
  rw [e] at h
  exact h

/-- C9 (as stated) fails: in `99999999999999999999,1h30m` the first field is a decimal
integer `> 0` and the second a positive duration, yet `Parse` returns an error and
leaves `Steps` at its old value, because the integer does not fit the 64-bit `int`. -/
theorem C9_daysteps_parse_counterexample :
    decimalInteger (utf8 "99999999999999999999") = some 99999999999999999999 ∧
    time.ParseDuration (utf8 "1h30m") = (5400 * time.Second, none) ∧
    utf8 "99999999999999999999" ++ 44 :: utf8 "1h30m" = utf8 "99999999999999999999,1h30m" ∧
    (zeroDaySteps.Parse (utf8 "99999999999999999999,1h30m")).2 ≠ none ∧
    (zeroDaySteps.Parse (utf8 "99999999999999999999,1h30m")).1.Steps ≠ 99999999999999999999 := by
  decide

end daysteps

namespace trainings

/-- C10: `Training.Parse` fails with an error wrapping `ErrInvalidFormat` exactly when the
line does not split on `,` into 3 fields; on a 3-field line whose steps field `Atoi` reads
as a positive integer and whose duration field `time.ParseDuration` reads as a positive
duration it returns no error for any middle field and stores that field unchanged in
`TrainingType`, together with `Steps` and `Duration`. -/
theorem C10_training_parse (t : Training) (line a k b : GoString) (n : Int)
    (v : time.Duration) (h : strings.Split line 44 = [a, k, b])
    (hA : strconv.Atoi a = (n, none)) (hn : 0 < n)
    (hD : time.ParseDuration b = (v, none)) (hv : 0 < v) :
    (∀ line' : GoString, failsWith (t.Parse line').2 ErrInvalidFormat = true ↔
      (strings.Split line' 44).length ≠ 3) ∧
    t.Parse line = ({ t with Duration := v, TrainingType := k, Steps := n }, none) := by
  constructor
  · intro l
    constructor
    · intro hf hlen
      obtain ⟨a', k', b', hab⟩ : ∃ a' k' b', strings.Split l 44 = [a', k', b'] := by
        rcases hs : strings.Split l 44 with _ | ⟨x, _ | ⟨y, _ | ⟨z, _ | ⟨c, r⟩⟩⟩⟩
        · rw [hs] at hlen; simp at hlen
        · rw [hs] at hlen; simp at hlen
        · rw [hs] at hlen; simp at hlen
        · exact ⟨x, y, z, rfl⟩
        · rw [hs] at hlen; simp at hlen
      obtain ⟨h1, h2, h3⟩ := Parse_three_fields t l a' k' b' hab
      by_cases hA' : (strconv.Atoi a').2 ≠ none ∨ (strconv.Atoi a').1 ≤ 0
      · obtain ⟨d, hd⟩ := h1 hA'
        rw [hd] at hf
        revert hf; simp [failsWith, GoError.Is, ErrInvalidFormat]
      · by_cases hD' : (time.ParseDuration b').2 ≠ none ∨ (time.ParseDuration b').1 ≤ 0
        · obtain ⟨d, hd⟩ := h2 hA' hD'
          rw [hd] at hf
          revert hf; simp [failsWith, GoError.Is, ErrInvalidFormat]
        · rw [h3 hA' hD'] at hf
          simp [failsWith] at hf
    · intro hlen
      rw [Training_Parse_bad_format t l hlen]
      simp [failsWith, GoError.Is, ErrInvalidFormat]
  · obtain ⟨-, -, h3⟩ := Parse_three_fields t line a k b h
    have := h3 (by rw [hA]; simp; omega) (by rw [hD]; simp; exact hv)
    rw [this, hA, hD]

/-- C10 at concrete inputs: an empty middle field and an unrecognised label are stored as
they are. -/
theorem C10_training_parse_witness :
    zeroTraining.Parse (utf8 "1000,,1h") =
      ({ zeroTraining with Duration := time.Hour, TrainingType := [], Steps := 1000 }, none) ∧
    zeroTraining.Parse (utf8 "1000,Плавание,1h") =
      ({ zeroTraining with
          Duration := time.Hour, TrainingType := utf8 "Плавание", Steps := 1000 }, none) :=
  ⟨(C10_training_parse zeroTraining (utf8 "1000,,1h") (utf8 "1000") [] (utf8 "1h") 1000
      time.Hour (by decide) (by decide) (by decide) (by decide) (by decide)).2,
   (C10_training_parse zeroTraining (utf8 "1000,Плавание,1h") (utf8 "1000") (utf8 "Плавание")
      (utf8 "1h") 1000 time.Hour (by decide) (by decide) (by decide) (by decide)
      (by decide)).2⟩

end trainings

/-! ### The reports -/

theorem digitsValue_append (xs ys : GoString) : ∀ acc,
    digitsValue (xs ++ ys) acc = (digitsValue xs acc).bind (digitsValue ys) := by
  induction xs with
  | nil => intro acc; rfl
  | cons x xs ih =>
    intro acc
    simp only [List.cons_append, digitsValue]
    split
    · exact ih _
    · rfl

namespace fmt

theorem digits_value (fuel : Nat) : ∀ n, n < 10 ^ (fuel + 1) →
    digitsValue (digits fuel n) 0 = some n := by
  induction fuel with
  | zero =>
    intro n hn
    have h10 : n < 10 := by simpa using hn
    have hm : n % 10 = n := Nat.mod_eq_of_lt h10
    simp only [digits, digitsValue, hm]
    rw [if_pos (by omega)]
    congr 1
    omega
  | succ fuel ih =>
    intro n hn
    unfold digits
    split
    · rename_i h10
      simp only [digitsValue]
      rw [if_pos (by omega)]
      congr 1
      omega
    · rw [digitsValue_append, ih (n / 10) (by
        rw [Nat.div_lt_iff_lt_mul (by decide)]
        rw [Nat.pow_succ] at hn
        exact hn)]
      have hm := Nat.mod_lt n (show 0 < 10 by decide)
      simp only [Option.some_bind, digitsValue]
      rw [if_pos (by omega)]
      congr 1
      omega

/-- The numeral printed for `n` reads back as `n`. -/
theorem natString_value (n : Nat) : digitsValue (natString n) 0 = some n :=
  digits_value n n (Nat.lt_of_lt_of_le (Nat.lt_pow_self (by decide) n)
    (Nat.pow_le_pow_right (by decide) (Nat.le_succ n)))

theorem digits_ne_nil (fuel n : Nat) : digits fuel n ≠ [] := by
  cases fuel with
  | zero => simp [digits]
  | succ fuel =>
    unfold digits
    split <;> simp

theorem digits_head (fuel n : Nat) : ∀ c cs, digits fuel n = c :: cs → 48 ≤ c := by
  induction fuel generalizing n with
  | zero =>
    intro c cs h
    simp only [digits, List.cons.injEq] at h
    omega
  | succ fuel ih =>
    intro c cs h
    unfold digits at h
    split at h
    · simp only [List.cons.injEq] at h
      omega
    · cases hd : digits fuel (n / 10) with
      | nil => exact absurd hd (digits_ne_nil _ _)
      | cons x xs =>
        rw [hd] at h
        simp only [List.cons_append, List.cons.injEq] at h
        rw [← h.1]
        exact ih _ x xs hd

/-- The text printed by `%d` is the decimal literal of the integer. -/
theorem formatInt_value (k : Int) : decimalInteger (formatInt k) = some k := by
  unfold formatInt
  have hv := natString_value k.natAbs
  split
  · rename_i hneg
    unfold decimalInteger
    simp only [if_true]
    rw [if_neg (show natString k.natAbs ≠ [] from digits_ne_nil _ _), hv]
    simp only [Option.map_some', Option.some.injEq]
    omega
  · rename_i hpos
    cases hd : natString k.natAbs with
    | nil => exact absurd hd (digits_ne_nil _ _)
    | cons c cs =>
      have hc := digits_head _ _ c cs hd
      rw [hd] at hv
      unfold decimalInteger
      simp only
      rw [if_neg (by omega), if_neg (by omega), hv]
      simp only [Option.map_some', Option.some.injEq]
      omega

/-- The rounded quotient is within half a unit of the exact quotient. -/
theorem roundHalfEven_near (num den : Nat) (hden : 0 < den) :
    2 * (roundHalfEven num den * den) ≤ 2 * num + den ∧
    2 * num ≤ 2 * (roundHalfEven num den * den) + den := by
  have hdm := Nat.div_add_mod num den
  have hr := Nat.mod_lt num hden
  rw [Nat.mul_comm] at hdm
  unfold roundHalfEven
  simp only
  split
  · rename_i h
    rw [Nat.add_mul, Nat.one_mul]
    generalize num / den * den = m at hdm ⊢
    generalize num % den = r at hdm hr h ⊢
    omega
  · rename_i h
    generalize num / den * den = m at hdm ⊢
    have h2 : ¬ den < 2 * (num % den) := fun hc => h (Or.inl hc)
    generalize num % den = r at hdm hr h2
    omega

/-- The verb `%.2f` on a finite value: an optional `-`, the integer part, a point and two
digits, the whole being the hundredth nearest to the exact value. -/
theorem formatFloat2_fin (neg : Bool) (n : Nat) :
    ∃ c : Nat,
      formatFloat2 (.fin neg n) =
        (if neg then [45] else []) ++ natString (c / 100)
          ++ [46, 48 + c / 10 % 10, 48 + c % 10] ∧
      c / 10 % 10 < 10 ∧ c % 10 < 10 ∧
      2 * (c * F64.one) ≤ 2 * (n * 100) + F64.one ∧
      2 * (n * 100) ≤ 2 * (c * F64.one) + F64.one := by
  refine ⟨roundHalfEven (n * 100) F64.one, ?_, Nat.mod_lt _ (by decide),
    Nat.mod_lt _ (by decide), roundHalfEven_near _ _ (Nat.two_pow_pos 1074)⟩
  cases neg <;> simp [formatFloat2]

end fmt

namespace spentenergy

theorem Running_error (steps : Int) (weight height : F64) (duration : time.Duration) :
    (RunningSpentCalories steps weight height duration).2 = none ∨
    RunningSpentCalories steps weight height duration = (F64.zero, some ErrInvalidParams) := by
  unfold RunningSpentCalories
  split
  · right; rfl
  · left; rfl

theorem Walking_error (steps : Int) (weight height : F64) (duration : time.Duration) :
    (WalkingSpentCalories steps weight height duration).2 = none ∨
    WalkingSpentCalories steps weight height duration = (F64.zero, some ErrInvalidParams) := by
  unfold WalkingSpentCalories
  rcases Running_error steps weight height duration with h | h
  · left
    rcases hr : RunningSpentCalories steps weight height duration with ⟨c, e⟩
    rw [hr] at h
    simp only at h
    subst h
    rfl
  · right; rw [h]

/-- The guard of `RunningSpentCalories` in terms of the duration itself. -/
theorem Running_ok_iff (steps : Int) (weight height : F64) (duration : time.Duration) :
    (RunningSpentCalories steps weight height duration).2 = none ↔
      ¬ (steps ≤ 0 ∨ F64.le weight F64.zero = true ∨ F64.le height F64.zero = true
        ∨ duration ≤ 0) := by
  unfold RunningSpentCalories
  simp only [time.Duration.Seconds_le_zero]
  by_cases h : steps ≤ 0 ∨ F64.le weight F64.zero = true ∨ F64.le height F64.zero = true
      ∨ duration ≤ 0
  · simp [h]
  · simp [h]

theorem Walking_ok_iff (steps : Int) (weight height : F64) (duration : time.Duration) :
    (WalkingSpentCalories steps weight height duration).2 = none ↔
      ¬ (steps ≤ 0 ∨ F64.le weight F64.zero = true ∨ F64.le height F64.zero = true
        ∨ duration ≤ 0) := by
  rw [← Running_ok_iff]
  unfold WalkingSpentCalories
  rcases hr : RunningSpentCalories steps weight height duration with ⟨c, _ | e⟩ <;> simp

theorem Walking_value (steps : Int) (weight height : F64) (duration : time.Duration)
    (h : (RunningSpentCalories steps weight height duration).2 = none) :
    WalkingSpentCalories steps weight height duration =
      (F64.mul (RunningSpentCalories steps weight height duration).1
        walkingCaloriesCoefficient, none) := by
  unfold WalkingSpentCalories
  rcases hr : RunningSpentCalories steps weight height duration with ⟨c, _ | e⟩
  · rfl
  · rw [hr] at h; simp at h

end spentenergy

namespace trainings

theorem caloriesByType_none_iff (t : Training) :
    t.caloriesByType = none ↔
      (t.TrainingType ≠ utf8 "Ходьба" ∧ t.TrainingType ≠ utf8 "Бег") := by
  unfold Training.caloriesByType
  by_cases hw : t.TrainingType = utf8 "Ходьба"
  · rw [if_pos hw]
    constructor
    · intro h; exact absurd h (by simp)
    · intro h; exact absurd hw h.1
  · rw [if_neg hw]
    by_cases hr : t.TrainingType = utf8 "Бег"
    · rw [if_pos hr]
      constructor
      · intro h; exact absurd h (by simp)
      · intro h; exact absurd hr h.2
    · rw [if_neg hr]
      exact ⟨fun _ => ⟨hw, hr⟩, fun _ => rfl⟩

theorem caloriesByType_some (t : Training) (c : F64 × Option GoError)
    (h : t.caloriesByType = some c) :
    c.2 = none ∨ c = (F64.zero, some spentenergy.ErrInvalidParams) := by
  unfold Training.caloriesByType at h
  split at h
  · simp only [Option.some.injEq] at h
    rw [← h]; exact spentenergy.Walking_error _ _ _ _
  · split at h
    · simp only [Option.some.injEq] at h
      rw [← h]; exact spentenergy.Running_error _ _ _ _
    · exact absurd h (by simp)

theorem ActionInfo_of_none (t : Training) (h : t.caloriesByType = none) :
    t.ActionInfo = ([], some ErrInvalidTraining) := by
  unfold Training.ActionInfo
  simp only [h]

theorem ActionInfo_of_error (t : Training) (v : F64) (e : GoError)
    (h : t.caloriesByType = some (v, some e)) : t.ActionInfo = ([], some e) := by
  unfold Training.ActionInfo
  simp only [h]

theorem ActionInfo_of_ok (t : Training) (calories : F64)
    (h : t.caloriesByType = some (calories, none)) :
    t.ActionInfo = (trainingReport t.TrainingType (time.Duration.Hours t.Duration)
      (spentenergy.Distance t.Steps t.Height)
      (spentenergy.MeanSpeed t.Steps t.Height t.Duration) calories, none) := by
  unfold Training.ActionInfo
  simp only [h]

theorem ErrInvalidParams_ne_ErrInvalidTraining :
    spentenergy.ErrInvalidParams ≠ ErrInvalidTraining ∧
    failsWith (some spentenergy.ErrInvalidParams) ErrInvalidTraining = false ∧
    failsWith (some ErrInvalidTraining) ErrInvalidTraining = true := by
  decide

/-- C11: `Training.ActionInfo` fails with `ErrInvalidTraining` and an empty report exactly
when `TrainingType` is neither the string `Ходьба` nor the string `Бег`, compared byte by
byte, whatever the other fields hold; the record parsed from `1000,Плавание,1h` fails
so, and so do a lower-case `бег` and ` Бег` with a leading blank. -/
theorem C11_training_invalid_kind_iff (t : Training) :
    (t.ActionInfo = ([], some ErrInvalidTraining) ↔
      (t.TrainingType ≠ utf8 "Ходьба" ∧ t.TrainingType ≠ utf8 "Бег")) ∧
    (failsWith t.ActionInfo.2 ErrInvalidTraining = true ↔
      (t.TrainingType ≠ utf8 "Ходьба" ∧ t.TrainingType ≠ utf8 "Бег")) ∧
    ((sampleTraining.Parse (utf8 "1000,Плавание,1h")).2 = none ∧
      (sampleTraining.Parse (utf8 "1000,Плавание,1h")).1.ActionInfo =
        ([], some ErrInvalidTraining)) ∧
    ((sampleTraining.Parse (utf8 "1000,бег,1h")).1.ActionInfo = ([], some ErrInvalidTraining) ∧
      (sampleTraining.Parse (utf8 "1000, Бег,1h")).1.ActionInfo =
        ([], some ErrInvalidTraining)) := by
  obtain ⟨hne, hf1, hf2⟩ := ErrInvalidParams_ne_ErrInvalidTraining
  have hfwd : (t.TrainingType ≠ utf8 "Ходьба" ∧ t.TrainingType ≠ utf8 "Бег") →
      t.ActionInfo = ([], some ErrInvalidTraining) :=
    fun h => ActionInfo_of_none t ((caloriesByType_none_iff t).2 h)
  have hback : failsWith t.ActionInfo.2 ErrInvalidTraining = true →
      (t.TrainingType ≠ utf8 "Ходьба" ∧ t.TrainingType ≠ utf8 "Бег") := by
    intro hfail
    rw [← caloriesByType_none_iff]
    cases hc : t.caloriesByType with
    | none => rfl
    | some c =>
      exfalso
      obtain ⟨v, e⟩ := c
      rcases caloriesByType_some t _ hc with h | h
      · simp only at h; subst h
        rw [ActionInfo_of_ok t v hc] at hfail
        simp [failsWith] at hfail
      · simp only [Prod.mk.injEq] at h
        obtain ⟨-, rfl⟩ := h
        rw [ActionInfo_of_error t v _ hc, hf1] at hfail
        exact absurd hfail (by simp)
  refine ⟨⟨fun h => hback (by rw [h]; exact hf2), hfwd⟩,
    ⟨hback, fun h => by rw [hfwd h]; exact hf2⟩, ?_, ?_⟩
  · exact ⟨by decide, ActionInfo_of_none _ ((caloriesByType_none_iff _).2 (by decide))⟩
  · exact ⟨ActionInfo_of_none _ ((caloriesByType_none_iff _).2 (by decide)),
      ActionInfo_of_none _ ((caloriesByType_none_iff _).2 (by decide))⟩

/-- C12: for a record with `Steps > 0`, `Duration > 0`, `Weight > 0` and `Height > 0`,
`ActionInfo` succeeds for the type `Бег` with the value of `RunningSpentCalories` and for
the type `Ходьба` with the value of `WalkingSpentCalories`, which is `0.5` times the
running value; the report holds the type, `Duration.Hours()`, `Distance`, `MeanSpeed`
and the calories, each number formatted with `%.2f`, which prints a finite value as the
nearest hundredth with exactly two digits after the point. -/
theorem C12_training_report (t : Training) (hs : 0 < t.Steps) (hd : 0 < t.Duration)
    (hw : F64.lt F64.zero t.Weight = true) (hh : F64.lt F64.zero t.Height = true) :
    (t.TrainingType = utf8 "Бег" →
      (spentenergy.RunningSpentCalories t.Steps t.Weight t.Height t.Duration).2 = none ∧
      t.ActionInfo = (trainingReport t.TrainingType (time.Duration.Hours t.Duration)
        (spentenergy.Distance t.Steps t.Height)
        (spentenergy.MeanSpeed t.Steps t.Height t.Duration)
        (spentenergy.RunningSpentCalories t.Steps t.Weight t.Height t.Duration).1, none)) ∧
    (t.TrainingType = utf8 "Ходьба" →
      (spentenergy.WalkingSpentCalories t.Steps t.Weight t.Height t.Duration).2 = none ∧
      (spentenergy.WalkingSpentCalories t.Steps t.Weight t.Height t.Duration).1 =
        F64.mul (F64.ofRatio 5 10)
          (spentenergy.RunningSpentCalories t.Steps t.Weight t.Height t.Duration).1 ∧
      t.ActionInfo = (trainingReport t.TrainingType (time.Duration.Hours t.Duration)
        (spentenergy.Distance t.Steps t.Height)
        (spentenergy.MeanSpeed t.Steps t.Height t.Duration)
        (spentenergy.WalkingSpentCalories t.Steps t.Weight t.Height t.Duration).1, none)) ∧
    (∀ (kind : GoString) (hours distance speed calories : F64),
      trainingReport kind hours distance speed calories =
        utf8 "Тип тренировки: " ++ kind ++ utf8 "\n"
          ++ utf8 "Длительность: " ++ fmt.formatFloat2 hours ++ utf8 " ч.\n"
          ++ utf8 "Дистанция: " ++ fmt.formatFloat2 distance ++ utf8 " км.\n"
          ++ utf8 "Скорость: " ++ fmt.formatFloat2 speed ++ utf8 " км/ч\n"
          ++ utf8 "Сожгли калорий: " ++ fmt.formatFloat2 calories ++ utf8 "\n") ∧
    (∀ (neg : Bool) (n : Nat), ∃ c : Nat,
      fmt.formatFloat2 (.fin neg n) =
        (if neg then [45] else []) ++ fmt.natString (c / 100)
          ++ [46, 48 + c / 10 % 10, 48 + c % 10] ∧
      c / 10 % 10 < 10 ∧ c % 10 < 10 ∧
      2 * (c * F64.one) ≤ 2 * (n * 100) + F64.one ∧
      2 * (n * 100) ≤ 2 * (c * F64.one) + F64.one) := by
  have hvalid : ¬ (t.Steps ≤ 0 ∨ F64.le t.Weight F64.zero = true ∨
      F64.le t.Height F64.zero = true ∨ t.Duration ≤ 0) := by
    rw [F64.not_le_of_lt hw, F64.not_le_of_lt hh]
    simp only [Bool.false_eq_true, false_or, not_or, not_le]
    exact ⟨hs, hd⟩
  have hrun := (spentenergy.Running_ok_iff t.Steps t.Weight t.Height t.Duration).2 hvalid
  have hwalk := (spentenergy.Walking_ok_iff t.Steps t.Weight t.Height t.Duration).2 hvalid
  refine ⟨fun hk => ⟨hrun, ?_⟩, fun hk => ⟨hwalk, ?_, ?_⟩, fun _ _ _ _ _ => rfl,
    fmt.formatFloat2_fin⟩
  · apply ActionInfo_of_ok
    have hne : t.TrainingType ≠ utf8 "Ходьба" := by rw [hk]; decide
    unfold Training.caloriesByType
    rw [if_neg hne, if_pos hk, ← hrun]
  · rw [spentenergy.Walking_value _ _ _ _ hrun]
    exact F64.mul_comm _ _
  · apply ActionInfo_of_ok
    unfold Training.caloriesByType
    rw [if_pos hk, ← hwalk]

set_option maxRecDepth 4000 in
/-- C12 at the concrete input of the specification: the line `1000,Ходьба,1h` with weight
75.5 and height 1.80 gives distance 0.81, calories 30.58, and the running value is the
float64 `61.155`. -/
theorem C12_training_report_witness :
    (sampleTraining.Parse (utf8 "1000,Ходьба,1h")).1.ActionInfo =
      (utf8 ("Тип тренировки: Ходьба\nДлительность: 1.00 ч.\nДистанция: 0.81 км.\n"
        ++ "Скорость: 0.81 км/ч\nСожгли калорий: 30.58\n"), none) ∧
    (spentenergy.RunningSpentCalories 1000 (F64.ofRatio 755 10) (F64.ofRatio 18 10)
      time.Hour).1 = F64.ofRatio 61155 1000 :=
  ⟨((C12_training_report (sampleTraining.Parse (utf8 "1000,Ходьба,1h")).1
      (by decide) (by decide) (by decide) (by decide)).2.1 (by decide)).2.2.trans
      (by decide),
    by decide⟩

end trainings

namespace daysteps

/-- C13: `DaySteps.ActionInfo` returns `ErrInvalidParams` with an empty report when
`Steps <= 0`, `Duration <= 0`, `Weight <= 0` or `Height <= 0`, and otherwise returns no
error and the three-line report of `Steps` (`%d`), `Distance(Steps, Height)` (`%.2f`) and
the value of `WalkingSpentCalories(Steps, Weight, Height, Duration)` (`%.2f`); `%d` prints
the decimal literal of the integer and `%.2f` prints a finite value as the nearest
hundredth with exactly two digits after the point. -/
theorem C13_daysteps_report (ds : DaySteps) :
    ((ds.Steps ≤ 0 ∨ F64.le ds.Weight F64.zero = true ∨ F64.le ds.Height F64.zero = true
        ∨ ds.Duration ≤ 0) →
      ds.ActionInfo = ([], some spentenergy.ErrInvalidParams)) ∧
    (¬ (ds.Steps ≤ 0 ∨ F64.le ds.Weight F64.zero = true ∨ F64.le ds.Height F64.zero = true
        ∨ ds.Duration ≤ 0) →
      ds.ActionInfo = (dayReport ds.Steps (spentenergy.Distance ds.Steps ds.Height)
        (spentenergy.WalkingSpentCalories ds.Steps ds.Weight ds.Height ds.Duration).1,
        none)) ∧
    (∀ (steps : Int) (distance calories : F64),
      dayReport steps distance calories =
        utf8 "Количество шагов: " ++ fmt.formatInt steps ++ utf8 ".\n"
          ++ utf8 "Дистанция составила " ++ fmt.formatFloat2 distance ++ utf8 " км.\n"
          ++ utf8 "Вы сожгли " ++ fmt.formatFloat2 calories ++ utf8 " ккал.\n") ∧
    (∀ k : Int, decimalInteger (fmt.formatInt k) = some k) ∧
    (∀ (neg : Bool) (n : Nat), ∃ c : Nat,
      fmt.formatFloat2 (.fin neg n) =
        (if neg then [45] else []) ++ fmt.natString (c / 100)
          ++ [46, 48 + c / 10 % 10, 48 + c % 10] ∧
      c / 10 % 10 < 10 ∧ c % 10 < 10 ∧
      2 * (c * F64.one) ≤ 2 * (n * 100) + F64.one ∧
      2 * (n * 100) ≤ 2 * (c * F64.one) + F64.one) ∧
    (sampleDaySteps.Parse (utf8 "792,1h30m")).1.ActionInfo =
      (utf8 "Количество шагов: 792.\nДистанция составила 0.64 км.\nВы сожгли 24.22 ккал.\n",
        none) := by
  refine ⟨fun h => ?_, fun h => ?_, fun _ _ _ => rfl, fmt.formatInt_value,
    fmt.formatFloat2_fin, by decide⟩
  · have hbad : (spentenergy.WalkingSpentCalories ds.Steps ds.Weight ds.Height
        ds.Duration).2 ≠ none := fun hc =>
      (spentenergy.Walking_ok_iff ds.Steps ds.Weight ds.Height ds.Duration).1 hc h
    rcases spentenergy.Walking_error ds.Steps ds.Weight ds.Height ds.Duration with h1 | h1
    · exact absurd h1 hbad
    · unfold DaySteps.ActionInfo
      simp only [h1]
  · have hok := (spentenergy.Walking_ok_iff ds.Steps ds.Weight ds.Height ds.Duration).2 h
    unfold DaySteps.ActionInfo
    rcases hr : spentenergy.WalkingSpentCalories ds.Steps ds.Weight ds.Height ds.Duration
      with ⟨c, _ | e⟩
    · rfl
    · rw [hr] at hok; simp at hok

end daysteps

/-! ### Lines, records and the dispatcher -/

namespace daysteps

/-- What `Parse` does is decided by the line alone: either every record is left as it is
and the same error is returned, or every record gets the same positive `Steps` and
`Duration` and no error is returned. -/
theorem DaySteps_Parse_cases (line : GoString) :
    (∃ e, ∀ ds : DaySteps, ds.Parse line = (ds, some e)) ∨
    (∃ n v, 0 < n ∧ 0 < v ∧
      ∀ ds : DaySteps, ds.Parse line = ({ ds with Steps := n, Duration := v }, none)) := by
  by_cases hlen : (strings.Split line 44).length ≠ 2
  · exact Or.inl ⟨_, fun ds => DaySteps_Parse_bad_format ds line hlen⟩
  · obtain ⟨a, b, hab⟩ : ∃ a b, strings.Split line 44 = [a, b] := by
      rcases hs : strings.Split line 44 with _ | ⟨a, _ | ⟨b, _ | ⟨c, r⟩⟩⟩
      · rw [hs] at hlen; simp at hlen
      · rw [hs] at hlen; simp at hlen
      · exact ⟨a, b, rfl⟩
      · rw [hs] at hlen; simp at hlen
    rcases hA : strconv.Atoi a with ⟨n, _ | ea⟩
    · by_cases hn : n ≤ 0
      · left
        refine ⟨.wrapf .daystepsInvalidCount (.got n), fun ds => ?_⟩
        unfold DaySteps.Parse
        simp only [hab, hA, if_pos hn]
      · rcases hD : time.ParseDuration b with ⟨v, _ | ed⟩
        · by_cases hv : v ≤ 0
          · left
            refine ⟨.wrapf .daystepsInvalidDuration .nilError, fun ds => ?_⟩
            unfold DaySteps.Parse
            simp only [hab, hA, if_neg hn, hD, time.Duration.Seconds_le_zero, if_pos hv]
          · right
            refine ⟨n, v, not_le.1 hn, not_le.1 hv, fun ds => ?_⟩
            unfold DaySteps.Parse
            simp only [hab, hA, if_neg hn, hD, time.Duration.Seconds_le_zero, if_neg hv]
        · left
          refine ⟨.wrapf .daystepsInvalidDuration (.duration ed), fun ds => ?_⟩
          unfold DaySteps.Parse
          simp only [hab, hA, if_neg hn, hD]
    · left
      refine ⟨.wrapf .daystepsInvalidCount (.atoi ea), fun ds => ?_⟩
      unfold DaySteps.Parse
      simp only [hab, hA]

end daysteps

namespace trainings

/-- What `Parse` does is decided by the line alone: either every record is left as it is
and the same error is returned, or every record gets the same positive `Steps`, the same
`TrainingType` and the same positive `Duration`, and no error is returned. -/
theorem Training_Parse_cases (line : GoString) :
    (∃ e, ∀ t : Training, t.Parse line = (t, some e)) ∨
    (∃ n k v, 0 < n ∧ 0 < v ∧
      ∀ t : Training, t.Parse line =
        ({ t with Duration := v, TrainingType := k, Steps := n }, none)) := by
  by_cases hlen : (strings.Split line 44).length ≠ 3
  · exact Or.inl ⟨_, fun t => Training_Parse_bad_format t line hlen⟩
  · obtain ⟨a, k, b, hab⟩ : ∃ a k b, strings.Split line 44 = [a, k, b] := by
      rcases hs : strings.Split line 44 with _ | ⟨x, _ | ⟨y, _ | ⟨z, _ | ⟨c, r⟩⟩⟩⟩
      · rw [hs] at hlen; simp at hlen
      · rw [hs] at hlen; simp at hlen
      · rw [hs] at hlen; simp at hlen
      · exact ⟨x, y, z, rfl⟩
      · rw [hs] at hlen; simp at hlen
    rcases hA : strconv.Atoi a with ⟨n, _ | ea⟩
    · by_cases hn : n ≤ 0
      · left
        refine ⟨.wrapf .trainingsInvalidCount (.got n), fun t => ?_⟩
        unfold Training.Parse
        simp only [hab, hA, if_pos hn]
      · rcases hD : time.ParseDuration b with ⟨v, _ | ed⟩
        · by_cases hv : v ≤ 0
          · left
            refine ⟨.wrapf .trainingsInvalidDuration .nilError, fun t => ?_⟩
            unfold Training.Parse
            simp only [hab, hA, if_neg hn, hD, time.Duration.Seconds_le_zero, if_pos hv]
          · right
            refine ⟨n, k, v, not_le.1 hn, not_le.1 hv, fun t => ?_⟩
            unfold Training.Parse
            simp only [hab, hA, if_neg hn, hD, time.Duration.Seconds_le_zero, if_neg hv]
        · left
          refine ⟨.wrapf .trainingsInvalidDuration (.duration ed), fun t => ?_⟩
          unfold Training.Parse
          simp only [hab, hA, if_neg hn, hD]
    · left
      refine ⟨.wrapf .trainingsInvalidCount (.atoi ea), fun t => ?_⟩
      unfold Training.Parse
      simp only [hab, hA]

end trainings

namespace actioninfo

theorem Info_nil (P : DataParser σ) (dp : σ) : Info [] P dp = (dp, []) := rfl

theorem Info_cons (P : DataParser σ) (dp : σ) (data : GoString) (rest : List GoString) :
    Info (data :: rest) P dp =
      ((Info rest P (step P dp data).1).1, (step P dp data).2 :: (Info rest P (step P dp data).1).2) :=
  rfl

theorem Info_length (P : DataParser σ) (dataset : List GoString) :
    ∀ dp : σ, (Info dataset P dp).2.length = dataset.length := by
  induction dataset with
  | nil => intro dp; rfl
  | cons data rest ih => intro dp; rw [Info_cons]; simp [ih]

theorem Info_append (P : DataParser σ) (a b : List GoString) :
    ∀ dp : σ, Info (a ++ b) P dp =
      ((Info b P (Info a P dp).1).1, (Info a P dp).2 ++ (Info b P (Info a P dp).1).2) := by
  induction a with
  | nil => intro dp; simp [Info_nil]
  | cons data rest ih =>
    intro dp
    rw [List.cons_append, Info_cons, ih, Info_cons]
    simp

theorem Info_getElem (P : DataParser σ) (dataset : List GoString) :
    ∀ (dp : σ) (i : Nat) (h : i < dataset.length),
      (Info dataset P dp).2[i]? =
        some (step P (Info (dataset.take i) P dp).1 dataset[i]).2 := by
  induction dataset with
  | nil => intro dp i h; simp at h
  | cons data rest ih =>
    intro dp i h
    cases i with
    | zero => simp [Info_cons, Info_nil]
    | succ j =>
      have hj : j < rest.length := by simpa using h
      rw [Info_cons]
      simp only [List.getElem?_cons_succ, List.take_succ_cons, List.getElem_cons_succ]
      rw [ih (step P dp data).1 j hj, Info_cons]

/-- When related values give the same entry and stay related to the start value, the log
is computed line by line from the start value. -/
theorem Info_map (P : DataParser σ) (R : σ → σ → Prop)
    (hR : ∀ (s s' : σ) (line : GoString), R s s' →
      R (step P s line).1 s' ∧ (step P s line).2 = (step P s' line).2)
    (dataset : List GoString) :
    ∀ s s' : σ, R s s' →
      (Info dataset P s).2 = dataset.map (fun line => (step P s' line).2) ∧
      R (Info dataset P s).1 s' := by
  induction dataset with
  | nil => intro s s' h; exact ⟨rfl, h⟩
  | cons data rest ih =>
    intro s s' h
    obtain ⟨h1, h2⟩ := hR s s' data h
    obtain ⟨h3, h4⟩ := ih _ s' h1
    rw [Info_cons]
    exact ⟨by simp [h2, h3], h4⟩

/-- A list in which exactly the entry at position `k` is an error has one error and
`length - 1` reports. -/
theorem count_one_error (log : List LogEntry) :
    ∀ k : Nat, k < log.length →
      (∀ i (h : i < log.length), log[i].isError = true ↔ i = k) →
      (log.filter LogEntry.isError).length = 1 ∧
      (log.filter (fun e => !e.isError)).length = log.length - 1 := by
  induction log with
  | nil => intro k hk; simp at hk
  | cons e rest ih =>
    intro k hk h
    cases k with
    | zero =>
      have he : e.isError = true := (h 0 (by simp)).2 rfl
      have hrest : ∀ x ∈ rest, x.isError = false := by
        intro x hx
        obtain ⟨j, hj, rfl⟩ := List.getElem_of_mem hx
        have := h (j + 1) (by simpa using hj)
        simp only [List.getElem_cons_succ] at this
        cases hxe : rest[j].isError
        · rfl
        · have := this.1 hxe; omega
      have h1 : rest.filter LogEntry.isError = [] := by
        rw [List.filter_eq_nil_iff]; intro x hx; simp [hrest x hx]
      have h2 : rest.filter (fun e => !e.isError) = rest := by
        rw [List.filter_eq_self]; intro x hx; simp [hrest x hx]
      simp [List.filter_cons, he, h1, h2]
    | succ j =>
      have hj : j < rest.length := by simpa using hk
      have he : e.isError = false := by
        cases hxe : e.isError
        · rfl
        · have := (h 0 (by simp)).1 (by simpa using hxe); omega
      have hrest : ∀ i (hi : i < rest.length), rest[i].isError = true ↔ i = j := by
        intro i hi
        have := h (i + 1) (by simpa using hi)
        simp only [List.getElem_cons_succ] at this
        rw [this]; omega
      obtain ⟨h1, h2⟩ := ih j hj hrest
      simp only [List.filter_cons, he, Bool.false_eq_true, if_false, Bool.not_false, if_true,
        List.length_cons, h1, h2]
      constructor
      · trivial
      · omega

theorem step_parse_error (P : DataParser σ) (s : σ) (data : GoString) (e : GoError)
    (h : (P.Parse s data).2 = some e) : (step P s data).2 = .error e := by
  unfold step
  rcases hp : P.Parse s data with ⟨s1, _ | e'⟩
  · rw [hp] at h; simp at h
  · rw [hp] at h
    simp only [Option.some.injEq] at h
    subst h; rfl

theorem step_action_error (P : DataParser σ) (s s1 s2 : σ) (data info : GoString)
    (e : GoError) (hp : P.Parse s data = (s1, none))
    (ha : P.ActionInfo s1 = (s2, (info, some e))) : (step P s data).2 = .error e := by
  unfold step; rw [hp]; simp only [ha]

theorem step_report (P : DataParser σ) (s s1 s2 : σ) (data info : GoString)
    (hp : P.Parse s data = (s1, none))
    (ha : P.ActionInfo s1 = (s2, (info, none))) : (step P s data).2 = .report info := by
  unfold step; rw [hp]; simp only [ha]

/-- One round on a `DaySteps` record: the entry depends on the line and the profile only,
and the profile is kept. -/
theorem step_daysteps (ds ds' : daysteps.DaySteps) (line : GoString)
    (h : ds.toPersonal = ds'.toPersonal) :
    (step dayStepsParser ds line).1.toPersonal = ds'.toPersonal ∧
    (step dayStepsParser ds line).2 = (step dayStepsParser ds' line).2 := by
  rcases daysteps.DaySteps_Parse_cases line with ⟨e, he⟩ | ⟨n, v, -, -, hok⟩
  · simp only [step, dayStepsParser, he]
    exact ⟨h, trivial⟩
  · have heq : ({ ds with Steps := n, Duration := v } : daysteps.DaySteps) =
        { ds' with Steps := n, Duration := v } := by
      cases ds; cases ds'; simp only at h; subst h; rfl
    simp only [step, dayStepsParser, hok, heq]
    refine ⟨?_, trivial⟩
    rcases ({ ds' with Steps := n, Duration := v } : daysteps.DaySteps).ActionInfo with
      ⟨info, _ | e⟩ <;> rfl

/-- One round on a `Training` record: the entry depends on the line and the profile only,
and the profile is kept. -/
theorem step_training (t t' : trainings.Training) (line : GoString)
    (h : t.toPersonal = t'.toPersonal) :
    (step trainingParser t line).1.toPersonal = t'.toPersonal ∧
    (step trainingParser t line).2 = (step trainingParser t' line).2 := by
  rcases trainings.Training_Parse_cases line with ⟨e, he⟩ | ⟨n, k, v, -, -, hok⟩
  · simp only [step, trainingParser, he]
    exact ⟨h, trivial⟩
  · have heq : ({ t with Duration := v, TrainingType := k, Steps := n } : trainings.Training) =
        { t' with Duration := v, TrainingType := k, Steps := n } := by
      cases t; cases t'; simp only at h; subst h; rfl
    simp only [step, trainingParser, hok, heq]
    refine ⟨?_, trivial⟩
    rcases ({ t' with Duration := v, TrainingType := k, Steps := n } :
      trainings.Training).ActionInfo with ⟨info, _ | e⟩ <;> rfl

theorem Info_daysteps (dataset : List GoString) (ds ds' : daysteps.DaySteps)
    (h : ds.toPersonal = ds'.toPersonal) :
    (Info dataset dayStepsParser ds).2 =
      dataset.map (fun line => (step dayStepsParser ds' line).2) ∧
    (Info dataset dayStepsParser ds).1.toPersonal = ds'.toPersonal :=
  Info_map dayStepsParser (fun s s' => s.toPersonal = s'.toPersonal)
    (fun s s' line hs => step_daysteps s s' line hs) dataset ds ds' h

theorem Info_training (dataset : List GoString) (t t' : trainings.Training)
    (h : t.toPersonal = t'.toPersonal) :
    (Info dataset trainingParser t).2 =
      dataset.map (fun line => (step trainingParser t' line).2) ∧
    (Info dataset trainingParser t).1.toPersonal = t'.toPersonal :=
  Info_map trainingParser (fun s s' => s.toPersonal = s'.toPersonal)
    (fun s s' line hs => step_training s s' line hs) dataset t t' h

/-- A log computed line by line with exactly one failing line. -/
theorem count_one_error_map (f : GoString → LogEntry) (dataset : List GoString) (k : Nat)
    (hk : k < dataset.length)
    (h : ∀ i (hi : i < dataset.length), (f dataset[i]).isError = true ↔ i = k) :
    ((dataset.map f).filter LogEntry.isError).length = 1 ∧
    ((dataset.map f).filter (fun e => !e.isError)).length = dataset.length - 1 := by
  have := count_one_error (dataset.map f) k (by simpa using hk) (by
    intro i hi
    have hi' : i < dataset.length := by simpa using hi
    simpa using h i hi')
  simpa using this

/-- C14: `Info` logs exactly one entry per line, in the order of the lines and without
stopping early: for each line the error of `Parse` when `Parse` rejects it, otherwise the
error of `ActionInfo` or the report.  Hence in a batch of `N` lines where `Parse` rejects
line `k` and every other line yields a report, the log holds `N - 1` reports and one
error, the error of line `k` at position `k`; for the two record variants this can be
read off the lines one by one. -/
theorem C14_info_one_entry_per_line {σ : Type} (P : DataParser σ) (dataset : List GoString)
    (dp : σ) :
    (Info dataset P dp).2.length = dataset.length ∧
    (∀ (i : Nat) (h : i < dataset.length),
      (Info dataset P dp).2[i]? =
        some (step P (Info (dataset.take i) P dp).1 dataset[i]).2) ∧
    (∀ (s : σ) (data : GoString),
      (∀ e, (P.Parse s data).2 = some e → (step P s data).2 = .error e) ∧
      (∀ s1 s2 info e, P.Parse s data = (s1, none) → P.ActionInfo s1 = (s2, (info, some e)) →
        (step P s data).2 = .error e) ∧
      (∀ s1 s2 info, P.Parse s data = (s1, none) → P.ActionInfo s1 = (s2, (info, none)) →
        (step P s data).2 = .report info)) ∧
    (∀ (k : Nat) (hk : k < dataset.length) (e : GoError),
      (P.Parse (Info (dataset.take k) P dp).1 dataset[k]).2 = some e →
      (∀ (i : Nat) (h : i < dataset.length), i ≠ k →
        (step P (Info (dataset.take i) P dp).1 dataset[i]).2.isError = false) →
      ((Info dataset P dp).2.filter LogEntry.isError).length = 1 ∧
      ((Info dataset P dp).2.filter (fun x => !x.isError)).length = dataset.length - 1 ∧
      (Info dataset P dp).2[k]? = some (.error e)) ∧
    (∀ (lines : List GoString) (ds : daysteps.DaySteps) (k : Nat) (hk : k < lines.length)
      (e : GoError),
      (ds.Parse lines[k]).2 = some e →
      (∀ (i : Nat) (h : i < lines.length), i ≠ k →
        (step dayStepsParser ds lines[i]).2.isError = false) →
      ((Info lines dayStepsParser ds).2.filter LogEntry.isError).length = 1 ∧
      ((Info lines dayStepsParser ds).2.filter (fun x => !x.isError)).length
        = lines.length - 1 ∧
      (Info lines dayStepsParser ds).2[k]? = some (.error e)) ∧
    (∀ (lines : List GoString) (t : trainings.Training) (k : Nat) (hk : k < lines.length)
      (e : GoError),
      (t.Parse lines[k]).2 = some e →
      (∀ (i : Nat) (h : i < lines.length), i ≠ k →
        (step trainingParser t lines[i]).2.isError = false) →
      ((Info lines trainingParser t).2.filter LogEntry.isError).length = 1 ∧
      ((Info lines trainingParser t).2.filter (fun x => !x.isError)).length
        = lines.length - 1 ∧
      (Info lines trainingParser t).2[k]? = some (.error e)) := by
  refine ⟨Info_length P dataset dp, Info_getElem P dataset dp, ?_, ?_, ?_, ?_⟩
  · intro s data
    exact ⟨fun e h => step_parse_error P s data e h,
      fun s1 s2 info e hp ha => step_action_error P s s1 s2 data info e hp ha,
      fun s1 s2 info hp ha => step_report P s s1 s2 data info hp ha⟩
  · intro k hk e hpe hothers
    have hget : ∀ (i : Nat) (h : i < (Info dataset P dp).2.length)
        (h' : i < dataset.length),
        (Info dataset P dp).2[i] = (step P (Info (dataset.take i) P dp).1 dataset[i]).2 := by
      intro i h h'
      have := Info_getElem P dataset dp i h'
      rw [List.getElem?_eq_getElem h] at this
      simpa using this
    have hkerr := step_parse_error P _ _ e hpe
    have hcount := count_one_error (Info dataset P dp).2 k (by rw [Info_length]; exact hk) (by
      intro i hi
      have hi' : i < dataset.length := by rw [Info_length] at hi; exact hi
      rw [hget i hi hi']
      by_cases hik : i = k
      · subst hik
        simp [hkerr, LogEntry.isError]
      · simp [hothers i hi' hik, hik])
    rw [Info_length] at hcount
    refine ⟨hcount.1, hcount.2, ?_⟩
    rw [Info_getElem P dataset dp k hk, hkerr]
  · intro lines ds k hk e hpe hothers
    obtain ⟨hmap, -⟩ := Info_daysteps lines ds ds rfl
    have hkerr : (step dayStepsParser ds lines[k]).2 = .error e :=
      step_parse_error dayStepsParser ds _ e hpe
    have hcount := count_one_error_map (fun line => (step dayStepsParser ds line).2) lines k hk
      (by
        intro i hi
        by_cases hik : i = k
        · subst hik
          simp [hkerr, LogEntry.isError]
        · simp [hothers i hi hik, hik])
    rw [hmap]
    refine ⟨hcount.1, hcount.2, ?_⟩
    rw [List.getElem?_map, List.getElem?_eq_getElem hk]
    simpa using hkerr
  · intro lines t k hk e hpe hothers
    obtain ⟨hmap, -⟩ := Info_training lines t t rfl
    have hkerr : (step trainingParser t lines[k]).2 = .error e :=
      step_parse_error trainingParser t _ e hpe
    have hcount := count_one_error_map (fun line => (step trainingParser t line).2) lines k hk
      (by
        intro i hi
        by_cases hik : i = k
        · subst hik
          simp [hkerr, LogEntry.isError]
        · simp [hothers i hi hik, hik])
    rw [hmap]
    refine ⟨hcount.1, hcount.2, ?_⟩
    rw [List.getElem?_map, List.getElem?_eq_getElem hk]
    simpa using hkerr

/-- C14 on a concrete batch: of the three lines `792,1h30m`, `abc`, `1000,1h` the second is
rejected by `Parse`; the log has one error, at position 1, and two reports. -/
theorem C14_info_one_entry_per_line_witness :
    ((Info [utf8 "792,1h30m", utf8 "abc", utf8 "1000,1h"] dayStepsParser
      daysteps.sampleDaySteps).2.filter LogEntry.isError).length = 1 ∧
    ((Info [utf8 "792,1h30m", utf8 "abc", utf8 "1000,1h"] dayStepsParser
      daysteps.sampleDaySteps).2.filter (fun x => !x.isError)).length = 3 - 1 ∧
    (Info [utf8 "792,1h30m", utf8 "abc", utf8 "1000,1h"] dayStepsParser
      daysteps.sampleDaySteps).2[1]? =
        some (.error (.wrapf .daystepsInvalidFormat (.parts 1))) :=
  (C14_info_one_entry_per_line dayStepsParser [] daysteps.sampleDaySteps).2.2.2.2.1
    [utf8 "792,1h30m", utf8 "abc", utf8 "1000,1h"] daysteps.sampleDaySteps 1 (by decide)
    (.wrapf .daystepsInvalidFormat (.parts 1)) (by decide) (by decide)

/-- C15: for `DaySteps` and for `Training` the entry logged for a line depends only on
the line and on the profile of the record, not on its `Steps`, `Duration` or
`TrainingType` nor on the lines processed before: two records with the same profile give
the same entry, the log of a batch is the list of the entries of its lines, and the log
of `a ++ b` is the log of `a` followed by the log of `b` run on any record with the same
profile. -/
theorem C15_lines_independent (ds ds' : daysteps.DaySteps) (t t' : trainings.Training)
    (a b : List GoString) (line : GoString) :
    (ds.toPersonal = ds'.toPersonal →
      (step dayStepsParser ds line).2 = (step dayStepsParser ds' line).2 ∧
      (Info a dayStepsParser ds).2 = a.map (fun l => (step dayStepsParser ds' l).2) ∧
      (Info (a ++ b) dayStepsParser ds).2 =
        (Info a dayStepsParser ds).2 ++ (Info b dayStepsParser ds').2) ∧
    (t.toPersonal = t'.toPersonal →
      (step trainingParser t line).2 = (step trainingParser t' line).2 ∧
      (Info a trainingParser t).2 = a.map (fun l => (step trainingParser t' l).2) ∧
      (Info (a ++ b) trainingParser t).2 =
        (Info a trainingParser t).2 ++ (Info b trainingParser t').2) := by
  constructor
  · intro h
    refine ⟨(step_daysteps ds ds' line h).2, (Info_daysteps a ds ds' h).1, ?_⟩
    rw [Info_append]
    simp only
    have h1 := (Info_daysteps a ds ds' h).2
    rw [(Info_daysteps b _ ds' h1).1, (Info_daysteps b ds' ds' rfl).1]
  · intro h'
    refine ⟨(step_training t t' line h').2, (Info_training a t t' h').1, ?_⟩
    rw [Info_append]
    simp only
    have h1 := (Info_training a t t' h').2
    rw [(Info_training b _ t' h1).1, (Info_training b t' t' rfl).1]

/-- C15 at concrete inputs: records that differ in `Steps`, `Duration` and `TrainingType`
only, a batch with a rejected line, and a line split off the batch. -/
theorem C15_lines_independent_witness :
    (Info ([utf8 "792,1h30m", utf8 "abc"] ++ [utf8 "1000,1h"]) dayStepsParser
      daysteps.sampleDaySteps).2 =
      (Info [utf8 "792,1h30m", utf8 "abc"] dayStepsParser daysteps.sampleDaySteps).2 ++
        (Info [utf8 "1000,1h"] dayStepsParser
          { daysteps.sampleDaySteps with Steps := 5, Duration := 7 }).2 ∧
    (Info ([utf8 "1000,Бег,1h", utf8 "x,Бег,1h"] ++ [utf8 "1000,Ходьба,1h"]) trainingParser
      trainings.sampleTraining).2 =
      (Info [utf8 "1000,Бег,1h", utf8 "x,Бег,1h"] trainingParser trainings.sampleTraining).2 ++
        (Info [utf8 "1000,Ходьба,1h"] trainingParser
          { trainings.sampleTraining with Steps := 5, TrainingType := utf8 "Бег",
                                          Duration := 7 }).2 :=
  have hw := C15_lines_independent daysteps.sampleDaySteps
    { daysteps.sampleDaySteps with Steps := 5, Duration := 7 } trainings.sampleTraining
    { trainings.sampleTraining with Steps := 5, TrainingType := utf8 "Бег", Duration := 7 }
    [utf8 "792,1h30m", utf8 "abc"] [utf8 "1000,1h"] (utf8 "abc")
  have hv := C15_lines_independent daysteps.sampleDaySteps
    { daysteps.sampleDaySteps with Steps := 5, Duration := 7 } trainings.sampleTraining
    { trainings.sampleTraining with Steps := 5, TrainingType := utf8 "Бег", Duration := 7 }
    [utf8 "1000,Бег,1h", utf8 "x,Бег,1h"] [utf8 "1000,Ходьба,1h"] (utf8 "abc")
  ⟨(hw.1 rfl).2.2, (hv.2 rfl).2.2⟩

/-- C16: the profile is read-only.  `DaySteps.Parse` and `Training.Parse` return a record
with the same `Name`, `Weight` and `Height`, whether they succeed or fail; `ActionInfo`
(both variants) leaves the record as it is; hence after `Info` over any batch the record
still has the profile it started with. -/
theorem C16_profile_read_only (ds : daysteps.DaySteps) (t : trainings.Training)
    (line : GoString) (dataset : List GoString) :
    ((ds.Parse line).1.toPersonal = ds.toPersonal ∧
      (ds.Parse line).1.Name = ds.Name ∧ (ds.Parse line).1.Weight = ds.Weight ∧
      (ds.Parse line).1.Height = ds.Height) ∧
    ((t.Parse line).1.toPersonal = t.toPersonal ∧
      (t.Parse line).1.Name = t.Name ∧ (t.Parse line).1.Weight = t.Weight ∧
      (t.Parse line).1.Height = t.Height) ∧
    (dayStepsParser.ActionInfo ds = (ds, ds.ActionInfo) ∧
      trainingParser.ActionInfo t = (t, t.ActionInfo)) ∧
    ((Info dataset dayStepsParser ds).1.toPersonal = ds.toPersonal ∧
      (Info dataset trainingParser t).1.toPersonal = t.toPersonal) := by
  have hd : (ds.Parse line).1.toPersonal = ds.toPersonal := by
    rcases daysteps.DaySteps_Parse_cases line with ⟨e, he⟩ | ⟨n, v, -, -, hok⟩
    · rw [he]
    · rw [hok]
  have ht : (t.Parse line).1.toPersonal = t.toPersonal := by
    rcases trainings.Training_Parse_cases line with ⟨e, he⟩ | ⟨n, k, v, -, -, hok⟩
    · rw [he]
    · rw [hok]
  refine ⟨⟨hd, ?_, ?_, ?_⟩, ⟨ht, ?_, ?_, ?_⟩, ⟨rfl, rfl⟩,
    ⟨(Info_daysteps dataset ds ds rfl).2, (Info_training dataset t t rfl).2⟩⟩
  · exact congrArg personaldata.Personal.Name hd
  · exact congrArg personaldata.Personal.Weight hd
  · exact congrArg personaldata.Personal.Height hd
  · exact congrArg personaldata.Personal.Name ht
  · exact congrArg personaldata.Personal.Weight ht
  · exact congrArg personaldata.Personal.Height ht

end actioninfo

/-! ### The formulas in exact arithmetic -/

namespace generic

/-- In exact arithmetic `float64(d / U) + float64(d % U) / U` is the quotient `d / U`. -/
theorem exact_split (d U : Int) (hU : U ≠ 0) :
    ((Int.tdiv d U : Int) : ℚ) + ((Int.tmod d U : Int) : ℚ) / (U : ℚ) = (d : ℚ) / (U : ℚ) := by
  have h := Int.tdiv_add_tmod d U
  have hq : (U : ℚ) ≠ 0 := by exact_mod_cast hU
  have hc : (U : ℚ) * ((Int.tdiv d U : Int) : ℚ) + ((Int.tmod d U : Int) : ℚ) = (d : ℚ) := by
    exact_mod_cast h
  field_simp
  linarith

theorem exact_Seconds (d : time.Duration) : Seconds Arith.exact d = (d : ℚ) / 1000000000 := by
  have := exact_split d time.Second (by decide)
  simpa [Seconds, Arith.exact, time.Second, time.Millisecond, time.Microsecond,
    time.Nanosecond] using this

theorem exact_Minutes (d : time.Duration) : Minutes Arith.exact d = (d : ℚ) / 60000000000 := by
  have := exact_split d time.Minute (by decide)
  simpa [Minutes, Arith.exact, time.Minute, time.Second, time.Millisecond, time.Microsecond,
    time.Nanosecond] using this

theorem exact_Hours (d : time.Duration) : Hours Arith.exact d = (d : ℚ) / 3600000000000 := by
  have := exact_split d time.Hour (by decide)
  simpa [Hours, Arith.exact, time.Hour, time.Minute, time.Second, time.Millisecond,
    time.Microsecond, time.Nanosecond] using this

/-- Read in binary64, the formulas over an arithmetic are the functions of the code. -/
theorem binary64_eq :
    (∀ d, Seconds Arith.binary64 d = time.Duration.Seconds d) ∧
    (∀ d, Minutes Arith.binary64 d = time.Duration.Minutes d) ∧
    (∀ d, Hours Arith.binary64 d = time.Duration.Hours d) ∧
    (∀ steps height, Distance Arith.binary64 steps height = spentenergy.Distance steps height) ∧
    (∀ steps height d, MeanSpeed Arith.binary64 steps height d =
      spentenergy.MeanSpeed steps height d) ∧
    (∀ steps weight height d, RunningSpentCalories Arith.binary64 steps weight height d =
      spentenergy.RunningSpentCalories steps weight height d) :=
  ⟨fun _ => rfl, fun _ => rfl, fun _ => rfl, fun _ _ => rfl, fun _ _ _ => rfl,
    fun _ _ _ _ => rfl⟩

/-- In binary64 the calories do depend on the duration, in the last bits: for 1000 steps,
75.5 kg and 1.80 m one hour gives the float64 `61.155` and one second gives
`61.154999999999994`. -/
theorem binary64_duration_example :
    (spentenergy.RunningSpentCalories 1000 (F64.ofRatio 755 10) (F64.ofRatio 18 10)
      time.Hour).1 = F64.ofRatio 61155 1000 ∧
    (spentenergy.RunningSpentCalories 1000 (F64.ofRatio 755 10) (F64.ofRatio 18 10)
      time.Second).1 = F64.ofRatio 61154999999999994 1000000000000000 ∧
    F64.ofRatio 61155 1000 ≠ F64.ofRatio 61154999999999994 1000000000000000 := by
  decide

/-- C17: in exact (rational) arithmetic, for `steps > 0`, `weight > 0`, `height > 0` and
`duration > 0`, `RunningSpentCalories` returns `weight * Distance(steps, height)` without
error, so two calls that differ only in their positive duration return the same
calories. -/
theorem C17_exact_running_is_weight_times_distance (steps : Int) (weight height : ℚ)
    (d d' : time.Duration) (hs : 0 < steps) (hw : 0 < weight) (hh : 0 < height)
    (hd : 0 < d) (hd' : 0 < d') :
    RunningSpentCalories Arith.exact steps weight height d =
      (weight * Distance Arith.exact steps height, none) ∧
    RunningSpentCalories Arith.exact steps weight height d' =
      RunningSpentCalories Arith.exact steps weight height d := by
  have key : ∀ x : time.Duration, 0 < x →
      RunningSpentCalories Arith.exact steps weight height x =
        (weight * Distance Arith.exact steps height, none) := by
    intro x hx
    have hxq : (0 : ℚ) < (x : ℚ) := by exact_mod_cast hx
    have hx0 : (x : ℚ) ≠ 0 := ne_of_gt hxq
    have hns : ¬ steps ≤ 0 := not_le.mpr hs
    have hnx : ¬ x ≤ 0 := not_le.mpr hx
    have hsec : ¬ ((x : ℚ) / 1000000000 ≤ 0) := by
      have : (0 : ℚ) < (x : ℚ) / 1000000000 := by positivity
      exact not_le.mpr this
    unfold RunningSpentCalories MeanSpeed
    rw [exact_Seconds, exact_Minutes, exact_Hours]
    simp only [Arith.exact, hns, hnx, not_le.mpr hw, not_le.mpr hh, hsec, decide_False,
      Bool.false_eq_true, or_self, if_false, Int.cast_ofNat, Prod.mk.injEq, and_true]
    field_simp
    ring
  exact ⟨key d hd, by rw [key d hd, key d' hd']⟩

/-- C17 at a concrete input: 1000 steps, 75.5 kg, 1.80 m, one hour and one second. -/
theorem C17_exact_running_is_weight_times_distance_witness :
    RunningSpentCalories Arith.exact 1000 (755 / 10) (18 / 10) time.Hour =
      ((755 / 10 : ℚ) * Distance Arith.exact 1000 (18 / 10), none) ∧
    RunningSpentCalories Arith.exact 1000 (755 / 10) (18 / 10) time.Second =
      RunningSpentCalories Arith.exact 1000 (755 / 10) (18 / 10) time.Hour :=
  C17_exact_running_is_weight_times_distance 1000 (755 / 10) (18 / 10) time.Hour time.Second
    (by decide) (by norm_num) (by norm_num) (by decide) (by decide)

end generic

/-! ### Parsing followed by reporting -/

/-- C18: the validation of the parsers is enough for the formula engine.  For a profile
with `Weight > 0` and `Height > 0`, after a call of `DaySteps.Parse` that returns no
error `ActionInfo` returns no error; after a call of `Training.Parse` that returns no
error `ActionInfo` returns no error exactly when the stored type is `Ходьба` or `Бег`,
and the only error it can return is `ErrInvalidTraining`. -/
theorem C18_parse_validates_for_action_info (ds : daysteps.DaySteps) (t : trainings.Training)
    (lineD lineT : GoString) :
    (F64.lt F64.zero ds.Weight = true → F64.lt F64.zero ds.Height = true →
      (ds.Parse lineD).2 = none →
      (ds.Parse lineD).1.ActionInfo.2 = none) ∧
    (F64.lt F64.zero t.Weight = true → F64.lt F64.zero t.Height = true →
      (t.Parse lineT).2 = none →
      ((t.Parse lineT).1.ActionInfo.2 = none ↔
        ((t.Parse lineT).1.TrainingType = utf8 "Ходьба" ∨
          (t.Parse lineT).1.TrainingType = utf8 "Бег")) ∧
      (∀ e, (t.Parse lineT).1.ActionInfo.2 = some e → e = trainings.ErrInvalidTraining)) := by
  have hvalid : ∀ (steps : Int) (w h : F64) (d : time.Duration), 0 < steps → 0 < d →
      F64.lt F64.zero w = true → F64.lt F64.zero h = true →
      ¬ (steps ≤ 0 ∨ F64.le w F64.zero = true ∨ F64.le h F64.zero = true ∨ d ≤ 0) := by
    intro steps w h d hs hd hw hh
    rw [F64.not_le_of_lt hw, F64.not_le_of_lt hh]
    simp only [Bool.false_eq_true, false_or, not_or, not_le]
    exact ⟨hs, hd⟩
  constructor
  · intro hwD hhD hD
    rcases daysteps.DaySteps_Parse_cases lineD with ⟨e, he⟩ | ⟨n, v, hn, hv, hok⟩
    · rw [he] at hD; simp at hD
    · rw [hok]
      have hw := (spentenergy.Walking_ok_iff n ds.Weight ds.Height v).2
        (hvalid n _ _ v hn hv hwD hhD)
      unfold daysteps.DaySteps.ActionInfo
      simp only
      rcases hr : spentenergy.WalkingSpentCalories n ds.Weight ds.Height v with ⟨c, _ | e⟩
      · rfl
      · rw [hr] at hw; simp at hw
  · intro hwT hhT hT
    rcases trainings.Training_Parse_cases lineT with ⟨e, he⟩ | ⟨n, k, v, hn, hv, hok⟩
    · rw [he] at hT; simp at hT
    · rw [hok]
      have hv' := hvalid n _ _ v hn hv hwT hhT
      have hrun := (spentenergy.Running_ok_iff n t.Weight t.Height v).2 hv'
      have hwalk := (spentenergy.Walking_ok_iff n t.Weight t.Height v).2 hv'
      generalize hrec : ({ t with Duration := v, TrainingType := k, Steps := n } :
        trainings.Training) = r
      have hS : r.Steps = n := by rw [← hrec]
      have hW : r.Weight = t.Weight := by rw [← hrec]
      have hH : r.Height = t.Height := by rw [← hrec]
      have hDu : r.Duration = v := by rw [← hrec]
      have hcal : ∀ c, r.caloriesByType = some c → c.2 = none := by
        intro c hc
        unfold trainings.Training.caloriesByType at hc
        rw [hS, hW, hH, hDu] at hc
        split at hc
        · simp only [Option.some.injEq] at hc; rw [← hc]; exact hwalk
        · split at hc
          · simp only [Option.some.injEq] at hc; rw [← hc]; exact hrun
          · exact absurd hc (by simp)
      have hnone := trainings.caloriesByType_none_iff r
      constructor
      · constructor
        · intro hok'
          by_contra hcon
          push_neg at hcon
          rw [trainings.ActionInfo_of_none r (hnone.2 hcon)] at hok'
          simp at hok'
        · intro hkind
          cases hc : r.caloriesByType with
          | none => exact absurd (hnone.1 hc) (by tauto)
          | some c =>
            obtain ⟨cv, ce⟩ := c
            have := hcal _ hc
            simp only at this
            subst this
            rw [trainings.ActionInfo_of_ok r cv hc]
      · intro e he
        cases hc : r.caloriesByType with
        | none =>
          rw [trainings.ActionInfo_of_none r hc] at he
          simp only [Option.some.injEq] at he
          exact he.symm
        | some c =>
          obtain ⟨cv, ce⟩ := c
          have := hcal _ hc
          simp only at this
          subst this
          rw [trainings.ActionInfo_of_ok r cv hc] at he
          simp at he

/-- C18 at concrete inputs: the lines `792,1h30m` and `1000,Бег,1h` with the profile
75.5 kg, 1.80 m. -/
theorem C18_parse_validates_for_action_info_witness :
    (daysteps.sampleDaySteps.Parse (utf8 "792,1h30m")).1.ActionInfo.2 = none ∧
    (trainings.sampleTraining.Parse (utf8 "1000,Бег,1h")).1.ActionInfo.2 = none :=
  have h := C18_parse_validates_for_action_info daysteps.sampleDaySteps
    trainings.sampleTraining (utf8 "792,1h30m") (utf8 "1000,Бег,1h")
  ⟨h.1 (by decide) (by decide) (by decide),
    (h.2 (by decide) (by decide) (by decide)).1.2 (Or.inr (by decide))⟩

/-- C19: `Parse` is atomic.  When `DaySteps.Parse` or `Training.Parse` returns an error
the record is left exactly as it was (`Steps`, `Duration`, `TrainingType` and the
profile); the fields are assigned only when no error is returned. -/
theorem C19_parse_atomic (ds : daysteps.DaySteps) (t : trainings.Training)
    (lineD lineT : GoString) :
    ((ds.Parse lineD).2 ≠ none → (ds.Parse lineD).1 = ds) ∧
    ((t.Parse lineT).2 ≠ none → (t.Parse lineT).1 = t) ∧
    ((ds.Parse lineD).2 = none → ∃ (n : Int) (v : time.Duration),
      (ds.Parse lineD).1 = { ds with Steps := n, Duration := v }) ∧
    ((t.Parse lineT).2 = none → ∃ (n : Int) (k : GoString) (v : time.Duration),
      (t.Parse lineT).1 = { t with Steps := n, TrainingType := k, Duration := v }) := by
  refine ⟨fun hD => ?_, fun hT => ?_, fun hD => ?_, fun hT => ?_⟩
  · rcases daysteps.DaySteps_Parse_cases lineD with ⟨e, he⟩ | ⟨n, v, -, -, hok⟩
    · rw [he]
    · rw [hok] at hD; exact absurd rfl hD
  · rcases trainings.Training_Parse_cases lineT with ⟨e, he⟩ | ⟨n, k, v, -, -, hok⟩
    · rw [he]
    · rw [hok] at hT; exact absurd rfl hT
  · rcases daysteps.DaySteps_Parse_cases lineD with ⟨e, he⟩ | ⟨n, v, -, -, hok⟩
    · rw [he] at hD; simp at hD
    · exact ⟨n, v, by rw [hok]⟩
  · rcases trainings.Training_Parse_cases lineT with ⟨e, he⟩ | ⟨n, k, v, -, -, hok⟩
    · rw [he] at hT; simp at hT
    · exact ⟨n, k, v, by rw [hok]⟩

/-- C19 at concrete inputs: a record that already holds values keeps them when the next
line is rejected, be it for its format, its count or its duration. -/
theorem C19_parse_atomic_witness :
    (({ daysteps.sampleDaySteps with Steps := 5, Duration := 7 } : daysteps.DaySteps).Parse
      (utf8 "1000,0h")).1 = { daysteps.sampleDaySteps with Steps := 5, Duration := 7 } ∧
    (({ trainings.sampleTraining with
        Steps := 5, TrainingType := utf8 "Бег", Duration := 7 } : trainings.Training).Parse
      (utf8 "0,Ходьба,1h")).1 =
      { trainings.sampleTraining with Steps := 5, TrainingType := utf8 "Бег", Duration := 7 } :=
  have h := C19_parse_atomic { daysteps.sampleDaySteps with Steps := 5, Duration := 7 }
    { trainings.sampleTraining with Steps := 5, TrainingType := utf8 "Бег", Duration := 7 }
    (utf8 "1000,0h") (utf8 "0,Ходьба,1h")
  ⟨h.1 (by decide), h.2.1 (by decide)⟩

/-- C20: the two line formats are disjoint.  No line is accepted by both
`DaySteps.Parse` and `Training.Parse`; a line accepted by one of them is rejected by the
other with the `ErrInvalidFormat` of that other package. -/
theorem C20_formats_disjoint (ds : daysteps.DaySteps) (t : trainings.Training)
    (line : GoString) :
    ¬ ((ds.Parse line).2 = none ∧ (t.Parse line).2 = none) ∧
    ((ds.Parse line).2 = none →
      failsWith (t.Parse line).2 trainings.ErrInvalidFormat = true ∧
      (t.Parse line).2 = some (.wrapf .trainingsInvalidFormat (.parts 2))) ∧
    ((t.Parse line).2 = none →
      failsWith (ds.Parse line).2 daysteps.ErrInvalidFormat = true ∧
      (ds.Parse line).2 = some (.wrapf .daystepsInvalidFormat (.parts 3))) := by
  have hd : (ds.Parse line).2 = none → (strings.Split line 44).length = 2 := by
    intro h
    by_contra hlen
    rw [daysteps.DaySteps_Parse_bad_format ds line hlen] at h
    simp at h
  have ht : (t.Parse line).2 = none → (strings.Split line 44).length = 3 := by
    intro h
    by_contra hlen
    rw [trainings.Training_Parse_bad_format t line hlen] at h
    simp at h
  refine ⟨?_, ?_, ?_⟩
  · rintro ⟨h1, h2⟩
    have := hd h1
    have := ht h2
    omega
  · intro h
    have hlen := hd h
    rw [trainings.Training_Parse_bad_format t line (by omega), hlen]
    exact ⟨rfl, rfl⟩
  · intro h
    have hlen := ht h
    rw [daysteps.DaySteps_Parse_bad_format ds line (by omega), hlen]
    exact ⟨rfl, rfl⟩
